import Mathlib

/-!
Verification of the mentat real-time parameter engine (Houston4444/mentat).

The embedding translates `src/mentat/module.py`, `src/mentat/timer.py` and
`src/mentat/midi.py` into Lean.  Python floats are modelled as rationals
(all the arithmetic the claims exercise is exact), nanosecond clocks as
rationals, and Python lists as Lean lists.  Classes of this repository that
are not under `src/` (`Parameter` and `Mapping` from `parameter.py`, the
`submodule_method` / `force_mainthread` decorators from `utils.py`, the
engine attributes from `engine.py`, the tick-period constants from
`config.py`) are modelled from the spec; each such definition carries a
doc comment starting with `Modelled from the spec:`.
-/

namespace Mentat

/-- Modelled from the spec: the process-wide fixed tick period
(`config.MAINLOOP_PERIOD`, in seconds; `config.py` is not under src/).
Its concrete value is irrelevant to every claim; only positivity is used. -/
def MAINLOOP_PERIOD : ℚ := 1 / 1000

/-- Modelled from the spec: the tick period in nanoseconds
(`config.MAINLOOP_PERIOD_NS`). -/
def MAINLOOP_PERIOD_NS : ℚ := MAINLOOP_PERIOD * 1000000000

/-- Python `int(float)` truncates toward zero; on rationals this is floor for
nonnegative numbers and ceiling for negative ones. -/
def pyInt (q : ℚ) : Int := if q < 0 then ⌈q⌉ else ⌊q⌋

/-- Modelled from the spec: one tempo-map entry `(timestamp ns, tempo bpm,
cycle length in beats)` as appended by the engine (`engine.py` is not under
src/; the spec fixes the triple shape in section 3, TempoMapEntry). -/
structure TempoEntry where
  time : ℚ
  tempo : ℚ
  cycle : ℚ
deriving DecidableEq, Repr

/-- Modelled from the spec: the engine attributes that `timer.py` reads —
monotonic clock `current_time` (ns), current `tempo` (bpm) and the
append-only `tempo_map` (`engine.py` is not under src/). -/
structure TEngine where
  current_time : ℚ
  tempo : ℚ
  tempo_map : List TempoEntry
deriving DecidableEq, Repr

/-- State of `mentat.timer.Timer` (timer.py lines 15-21). -/
structure Timer where
  start_time : ℚ
  tempo : ℚ
  end_time : ℚ
  is_beat_waiting : Bool
deriving DecidableEq, Repr

namespace Timer

/-- `Timer.__init__` / `Timer.reset` (timer.py lines 15-30): baseline the
timer on the engine's clock and tempo. -/
def reset (eng : TEngine) : Timer :=
  { start_time := eng.current_time
    tempo := eng.tempo
    end_time := eng.current_time
    is_beat_waiting := false }

/-- `Timer.update_tempo` (timer.py lines 32-48): if beat-waiting, rescale the
remaining wall time by dividing through the tempo quotient `new/old`; always
refresh the stored tempo snapshot. -/
def update_tempo (t : Timer) (eng : TEngine) : Timer :=
  let new_tempo := eng.tempo
  let t1 :=
    if t.is_beat_waiting then
      let remaining_time := t.end_time - eng.current_time
      let tempoQuot := new_tempo / t.tempo
      { t with end_time := eng.current_time + remaining_time / tempoQuot }
    else t
  { t1 with tempo := new_tempo }

/-- Python `mode[0] == c` on a non-empty string (an empty mode raises
IndexError in Python and is exercised by no claim). -/
def modeChar0 (mode : String) (c : Char) : Bool :=
  mode.data.head? = some c

/-- Duration conversion of `Timer.wait` (timer.py lines 54-63): beat modes
(`mode[0] == 'b'`) convert via `60/tempo` seconds per beat, second modes
(`mode[0] == 's'`) to nanoseconds, `'ns'` passes through; any other mode is
logged and the call returns without waiting (`none`). -/
def durationToNs (t : Timer) (duration : ℚ) (mode : String) : Option ℚ :=
  if modeChar0 mode 'b' then some (duration * 60 / t.tempo * 1000000000)
  else if modeChar0 mode 's' then some (duration * 1000000000)
  else if mode = "ns" then some duration
  else none

/-- First phase of `Timer.wait` (timer.py lines 65-68): fix
`end_time = start_time + duration_ns` and raise `is_beat_waiting` exactly for
beat-relative modes. -/
def waitSetup (t : Timer) (duration : ℚ) (mode : String) : Option Timer :=
  (durationToNs t duration mode).map fun d =>
    { t with end_time := t.start_time + d
             is_beat_waiting := modeChar0 mode 'b' }

/-- Condition of the polling loop of `Timer.wait` (timer.py line 70): the
loop keeps sleeping while `current_time < end_time - MAINLOOP_PERIOD_NS`. -/
def waitPollContinue (current_time end_time : ℚ) : Bool :=
  decide (current_time < end_time - MAINLOOP_PERIOD_NS)

/-- The engine time at which the polling loop of `Timer.wait` exits, given
the successive clock values observed at each poll: the first observation at
which the loop condition fails. -/
def waitExitTime (clock : List ℚ) (end_time : ℚ) : Option ℚ :=
  clock.find? fun c => ! waitPollContinue c end_time

/-- Final phase of `Timer.wait` (timer.py lines 73-75): clear
`is_beat_waiting` and rebase `start_time = end_time`. -/
def waitFinish (t : Timer) : Timer :=
  { t with is_beat_waiting := false, start_time := t.end_time }

/-- `Timer.wait` (timer.py lines 50-75) as a state transformer: the polling
loop does not change the timer's fields, so the post-wait state is the setup
state finished; an unrecognized mode leaves the timer unchanged. -/
def wait (t : Timer) (duration : ℚ) (mode : String) : Timer :=
  match waitSetup t duration mode with
  | none => t
  | some t1 => waitFinish t1

/-- Beat integration loop of `Timer.get_current_beat` (timer.py lines
82-95), rendered as structural recursion over the tempo map: every segment
but the last runs to the next entry's timestamp, the last runs to
`current_time`; each contributes `elapsed_ns / 1e9 / 60 * tempo` beats. -/
def beatSum (now : ℚ) : List TempoEntry → ℚ
  | [] => 0
  | [e] => (now - e.time) / 1000000000 / 60 * e.tempo
  | e :: e2 :: rest =>
      (e2.time - e.time) / 1000000000 / 60 * e.tempo + beatSum now (e2 :: rest)

/-- `Timer.get_current_beat` (timer.py lines 78-97): integrate the tempo map
and truncate to an integer with Python `int()`. -/
def get_current_beat (eng : TEngine) : Int :=
  pyInt (beatSum eng.current_time eng.tempo_map)

/-- Cycle integration loop of `Timer.get_current_cycle` (timer.py lines
113-126): like `beatSum` with each segment's beats divided by its cycle
length. -/
def cycleSum (now : ℚ) : List TempoEntry → ℚ
  | [] => 0
  | [e] => (now - e.time) / 1000000000 / 60 * e.tempo / e.cycle
  | e :: e2 :: rest =>
      (e2.time - e.time) / 1000000000 / 60 * e.tempo / e.cycle
        + cycleSum now (e2 :: rest)

/-- `Timer.get_current_cycle` (timer.py lines 109-128). -/
def get_current_cycle (eng : TEngine) : Int :=
  pyInt (cycleSum eng.current_time eng.tempo_map)

end Timer

/-- Segment view of the tempo map following the spec's words (section 4.5):
pair each entry with the end of its segment — the next entry's timestamp, or
`current_time` for the open final segment. -/
def specSegments (now : ℚ) : List TempoEntry → List (ℚ × ℚ)
  | [] => []
  | [e] => [(now - e.time, e.tempo)]
  | e :: e2 :: rest => (e2.time - e.time, e.tempo) :: specSegments now (e2 :: rest)

/-- Spec-side beat integral (section 4.5): sum `elapsed_seconds / 60 × tempo`
over the segments. -/
def specBeatSum (now : ℚ) (tm : List TempoEntry) : ℚ :=
  ((specSegments now tm).map fun s => s.1 / 1000000000 / 60 * s.2).sum

namespace Midi

/-- The ALSA event kinds that `midi.py` translates (the keys of
`MIDI_TO_OSC`, midi.py lines 13-22). -/
inductive EvType
  | noteon | noteoff | controller | pgmchange | pitchbend | sysex | start | stop
deriving DecidableEq, Repr

/-- `MIDI_TO_OSC` (midi.py lines 13-22). -/
def MIDI_TO_OSC : EvType → String
  | .noteon => "/note_on"
  | .noteoff => "/note_off"
  | .controller => "/control_change"
  | .pgmchange => "/program_change"
  | .pitchbend => "/pitch_bend"
  | .sysex => "/sysex"
  | .start => "/start"
  | .stop => "/stop"

/-- `OSC_TO_MIDI` (midi.py lines 24-33): the inverse address table;
addresses outside the table yield `none`. -/
def OSC_TO_MIDI (address : String) : Option EvType :=
  if address = "/note_on" then some .noteon
  else if address = "/note_off" then some .noteoff
  else if address = "/control_change" then some .controller
  else if address = "/program_change" then some .pgmchange
  else if address = "/pitch_bend" then some .pitchbend
  else if address = "/sysex" then some .sysex
  else if address = "/start" then some .start
  else if address = "/stop" then some .stop
  else none

/-- The fields of `event.get_data()` that `midi_to_osc` reads; numeric MIDI
payloads are integers. -/
structure EvData where
  noteChannel : Int
  noteNote : Int
  noteVelocity : Int
  controlChannel : Int
  controlParam : Int
  controlValue : Int
  ext : List Int
deriving DecidableEq, Repr

/-- `midi_to_osc` (midi.py lines 40-66): address from the table plus the
per-kind argument list; note-off forces the third argument to 0. -/
def midi_to_osc (mtype : EvType) (data : EvData) : String × List Int :=
  let address := MIDI_TO_OSC mtype
  let args : List Int :=
    match mtype with
    | .noteon => [data.noteChannel, data.noteNote, data.noteVelocity]
    | .noteoff => [data.noteChannel, data.noteNote, 0]
    | .pitchbend | .pgmchange => [data.controlChannel, data.controlValue]
    | .sysex => data.ext
    | .controller => [data.controlChannel, data.controlParam, data.controlValue]
    | _ => []
  (address, args)

/-- An inbound OSC argument as `osc_to_midi` sees it: a plain value, a
`(typetag, value)` tuple, or Python `None` (numeric values are modelled as
integers; the claims only exercise integral arguments). -/
inductive OscArg
  | val : Int → OscArg
  | tup : String → Int → OscArg
  | noneA : OscArg
deriving DecidableEq, Repr

/-- The `event.set_data(...)` payload built by `osc_to_midi`: only the keys
the source passes are present (`none` marks an omitted key). -/
structure SetData where
  noteChannel : Option Int := none
  noteNote : Option Int := none
  noteVelocity : Option Int := none
  controlChannel : Option Int := none
  controlParam : Option Int := none
  controlValue : Option Int := none
  ext : Option (List Int) := none
deriving DecidableEq, Repr

/-- Argument preprocessing of `osc_to_midi` (midi.py lines 73-79): unwrap
`(typetag, value)` tuples, abort on a `None` argument, coerce to `int`
(already integral here). -/
def unwrapArgs (args : List OscArg) : Option (List Int) :=
  if args.contains OscArg.noneA then none
  else some (args.map fun a =>
    match a with
    | .val v => v
    | .tup _ v => v
    | .noneA => 0)

/-- `osc_to_midi` (midi.py lines 68-95).  `Except` distinguishes the `None`
returns of the source (unknown address, `None` argument) from the
`IndexError` Python raises when an argument list is shorter than the kind
requires. -/
def osc_to_midi (address : String) (args : List OscArg) :
    Except String (Option (EvType × SetData)) :=
  match OSC_TO_MIDI address with
  | none => .ok none
  | some mtype =>
    match unwrapArgs args with
    | none => .ok none
    | some a =>
      let arg (i : Nat) : Except String Int :=
        match a.get? i with
        | some v => .ok v
        | none => .error "IndexError"
      match mtype with
      | .noteon => do
          let c ← arg 0; let n ← arg 1; let v ← arg 2
          .ok (some (mtype, { noteChannel := some c, noteNote := some n,
                              noteVelocity := some v }))
      | .noteoff => do
          let c ← arg 0; let n ← arg 1
          .ok (some (mtype, { noteChannel := some c, noteNote := some n }))
      | .pitchbend | .pgmchange => do
          let c ← arg 0; let v ← arg 1
          .ok (some (mtype, { controlChannel := some c, controlValue := some v }))
      | .sysex => .ok (some (mtype, { ext := some a }))
      | .controller => do
          let c ← arg 0; let p ← arg 1; let v ← arg 2
          .ok (some (mtype, { controlChannel := some c, controlParam := some p,
                              controlValue := some v }))
      | _ => .ok (some (mtype, {}))

end Midi

/-- A Python value as the parameter layer handles it: a number (floats are
modelled as rationals), a string, or a list of values. -/
inductive Value where
  | num : ℚ → Value
  | str : String → Value
  | list : List Value → Value

mutual

/-- Decidable equality for values (the nested list field rules out
automatic derivation). -/
def Value.decEq : (a b : Value) → Decidable (a = b)
  | .num a, .num b =>
      if h : a = b then .isTrue (congrArg Value.num h)
      else .isFalse fun he => h (Value.num.inj he)
  | .num _, .str _ => .isFalse fun he => Value.noConfusion he
  | .num _, .list _ => .isFalse fun he => Value.noConfusion he
  | .str _, .num _ => .isFalse fun he => Value.noConfusion he
  | .str a, .str b =>
      if h : a = b then .isTrue (congrArg Value.str h)
      else .isFalse fun he => h (Value.str.inj he)
  | .str _, .list _ => .isFalse fun he => Value.noConfusion he
  | .list _, .num _ => .isFalse fun he => Value.noConfusion he
  | .list _, .str _ => .isFalse fun he => Value.noConfusion he
  | .list a, .list b =>
      match Value.decEqList a b with
      | .isTrue h => .isTrue (congrArg Value.list h)
      | .isFalse h => .isFalse fun he => h (Value.list.inj he)

/-- Decidable equality for lists of values. -/
def Value.decEqList : (a b : List Value) → Decidable (a = b)
  | [], [] => .isTrue rfl
  | [], _ :: _ => .isFalse fun he => List.noConfusion he
  | _ :: _, [] => .isFalse fun he => List.noConfusion he
  | a :: as, b :: bs =>
      match Value.decEq a b with
      | .isTrue h1 =>
          match Value.decEqList as bs with
          | .isTrue h2 => .isTrue (by rw [h1, h2])
          | .isFalse h2 => .isFalse (by intro he; injection he; contradiction)
      | .isFalse h1 => .isFalse (by intro he; injection he; contradiction)

end

instance : DecidableEq Value := Value.decEq

/-- Modelled from the spec: an osc typetag of a dynamic value slot
(section 4.1) — numeric, string, or the `'*'` passthrough tag
(`parameter.py` is not under src/). -/
inductive TypeTag where
  | numT | strT | anyT
deriving DecidableEq, Repr

/-- Modelled from the spec: coercion of one value to its declared type tag
(section 4.1: numeric, string, or passthrough for a wildcard tag).  The
claims only exercise values that already fit their tag, where coercion is
the identity; the other cases are fixed stand-ins. -/
def coerceVal : TypeTag → Value → Value
  | .numT, .num q => .num q
  | .numT, _ => .num 0
  | .strT, .str s => .str s
  | .strT, .num q => .str (toString q.num)
  | .strT, .list _ => .str ""
  | .anyT, v => v

/-- True when a value already has the shape its tag declares (so that
`coerceVal` leaves it unchanged). -/
def tagFits : TypeTag → Value → Bool
  | .numT, .num _ => true
  | .strT, .str _ => true
  | .anyT, _ => true
  | _, _ => false

/-- Modelled from the spec: the `Parameter` state (`parameter.py` is not
under src/; fields follow section 3 "Parameter" and section 4.1): name,
optional wire address, dynamic type tags, static argument prefix, default,
current dynamic values, dirty flag, last-transmitted snapshot and animation
state.  The animation fields model a running linear animation in seconds
mode (the only shape any claim exercises). -/
structure Parameter where
  name : String
  address : Option String := none
  types : List TypeTag := []
  static_args : List Value := []
  default : Option Value := none
  value : List Value := []
  dirty : Bool := false
  last_sent : Option (List Value) := none
  force_requested : Bool := false
  animate_running : Bool := false
  animFrom : ℚ := 0
  animTo : ℚ := 0
  animStart : ℚ := 0
  animDuration : ℚ := 0
  animLoop : Bool := false
deriving DecidableEq

namespace Parameter

/-- Modelled from the spec: `Parameter.set` (section 4.1) — a value-count
mismatch is logged and the call is a no-op; otherwise each value is coerced
to its tag and the call returns whether any slot actually changed. -/
def set (p : Parameter) (vals : List Value) : Parameter × Bool :=
  if vals.length = p.types.length then
    let newVals := (p.types.zip vals).map fun tv => coerceVal tv.1 tv.2
    ({ p with value := newVals }, decide ¬newVals = p.value)
  else (p, false)

/-- Modelled from the spec: `Parameter.get` (section 4.1) — the current
dynamic values, a single value or an ordered list. -/
def get (p : Parameter) : Value :=
  if p.types.length = 1 then p.value.headD (.num 0) else .list p.value

/-- Modelled from the spec: the outgoing message arguments — static prefix
followed by the current dynamic values. -/
def get_message_args (p : Parameter) : List Value :=
  p.static_args ++ p.value

/-- Modelled from the spec: `Parameter.should_send` (section 4.1) — true if
a forced send was requested, or the address is set and the message
arguments differ from the last-transmitted snapshot. -/
def should_send (p : Parameter) : Bool :=
  p.force_requested
    || (!(p.address = none) && decide ¬some p.get_message_args = p.last_sent)

/-- Modelled from the spec: `Parameter.set_last_sent` (section 4.1) —
snapshot the current message arguments as the new baseline. -/
def set_last_sent (p : Parameter) : Parameter :=
  { p with last_sent := some p.get_message_args, force_requested := false }

/-- Modelled from the spec: stopping an animation transitions the animation
state Running to Idle (section 4.1). -/
def stop_animation (p : Parameter) : Parameter :=
  { p with animate_running := false }

/-- Modelled from the spec: `Parameter.update_animation` (section 4.1) for
the shape the claims exercise — a linear easing in seconds mode on a
single-valued numeric parameter: progress is elapsed time over duration,
clamped at 1 (transitioning Running to Idle) unless looping (wrapped); the
interpolated value is written through `Parameter.set`, whose change report
is returned. -/
def update_animation (p : Parameter) (now : ℚ) : Parameter × Bool :=
  let t0 := if p.animDuration = 0 then 1 else (now - p.animStart) / p.animDuration
  let tr : ℚ × Bool :=
    if p.animLoop then (t0 - ⌊t0⌋, true)
    else if 1 ≤ t0 then (1, false) else (t0, true)
  let v := p.animFrom + (p.animTo - p.animFrom) * tr.1
  let r := Parameter.set p [.num v]
  ({ r.1 with animate_running := tr.2 }, r.2)

/-- Well-formedness of a parameter: the value list matches the dynamic tag
list in length and shape (so re-coercion is the identity).  Everything the
normal `set` path produces satisfies this. -/
def WFb (p : Parameter) : Bool :=
  p.value.length = p.types.length
    && (p.types.zip p.value).all fun tv => tagFits tv.1 tv.2

end Parameter

/-- Modelled from the spec: a `Mapping` (section 3 "Mapping" and 4.2;
`parameter.py` is not under src/): normalized source and destination
parameter addresses (a path of names relative to the owning module), the
transform, and the propagation-cycle lock flag.  The transform receives one
argument per source parameter (`none` for an unresolvable source, as Python
passes the `None` returned by `Module.get`). -/
structure Mapping where
  src : List (List String)
  dest : List (List String)
  transform : List (Option Value) → Value
  locked : Bool := false

/-- Modelled from the spec: `Mapping.match` (section 4.2) — true iff the
path equals one of the mapping's source addresses (exact structural match,
no wildcards).  Named `matchSrc` because `match` is reserved in Lean. -/
def Mapping.matchSrc (mp : Mapping) (path : List String) : Bool :=
  mp.src.contains path

/-- Modelled from the spec: `Mapping.n_args`, the number of destination
parameters a transform result is distributed over (section 4.2). -/
def Mapping.n_args (mp : Mapping) : Nat :=
  mp.dest.length

/-- An outbound message: `(protocol, port, address, args)` as enqueued by
`Module.send` (module.py line 749). -/
structure Msg where
  protocol : Option String
  port : Option String
  address : String
  args : List Value

/-- Modelled from the spec: the engine attributes `module.py` writes to —
the outbound message queue and the FIFO of dirty modules, the latter
holding module paths here (Python holds object references; a module is
identified by its stable `module_path`). -/
structure EngineState where
  messages : List Msg := []
  dirtyModules : List (List String) := []

/-- The per-module data of `Module.__init__` (module.py lines 80-111) minus
the submodule tree: name, protocol, port, parameters, mappings, active
animation names, dirty flag, dirty-parameter FIFO (holding parameter names;
names are unique within a module) and the alias table. -/
structure ModuleData where
  name : String
  protocol : Option String := none
  port : Option String := none
  params : List Parameter := []
  mappings : List Mapping := []
  animations : List String := []
  dirty : Bool := false
  dirtyBuffer : List String := []
  aliases : List (String × String) := []

/-- A module: its own data plus the ordered submodule tree
(`self.submodules`, keyed by name). -/
inductive Module where
  | mk : ModuleData → List Module → Module

/-- The module's own data. -/
def Module.d : Module → ModuleData
  | .mk d _ => d

/-- The module's submodules. -/
def Module.subs : Module → List Module
  | .mk _ s => s

/-- Python truthiness of the optional strings used as ports and addresses:
`None` and the empty string are falsy. -/
def optFalsy : Option String → Bool
  | none => true
  | some s => s = ""

/-- Look a parameter up by name (`self.parameters[name]`; insertion order,
names unique). -/
def lookupParam (ps : List Parameter) (n : String) : Option Parameter :=
  ps.find? fun p => p.name = n

/-- Replace the (first) parameter of the given name. -/
def updateParam (ps : List Parameter) (n : String) (p : Parameter) : List Parameter :=
  match ps with
  | [] => []
  | q :: rest => if q.name = n then p :: rest else q :: updateParam rest n p

/-- Modelled from the spec: alias resolution of a leading submodule name
(sections 3 and 4.3; `utils.py` is not under src/): an alias key is
replaced by the submodule name it maps to, other names pass through. -/
def resolveAlias (al : List (String × String)) (h : String) : String :=
  match al.find? fun a => a.1 = h with
  | some a => a.2
  | none => h

/-- The names of a module's submodules. -/
def subNames (m : Module) : List String :=
  m.subs.map fun s => s.d.name

/-- The alias keys of a module. -/
def aliasKeys (m : Module) : List String :=
  m.d.aliases.map fun a => a.1

/-- Append one module path to the engine's dirty-module FIFO. -/
def pushDirtyModule (eng : EngineState) (path : List String) : EngineState :=
  { eng with dirtyModules := eng.dirtyModules ++ [path] }

/-- `Module.set_dirty` (module.py lines 701-707): if not yet dirty, raise
the flag and enqueue the module (its path) on the engine FIFO. -/
def ModuleData.set_dirty (d : ModuleData) (path : List String) (eng : EngineState) :
    ModuleData × EngineState :=
  if d.dirty then (d, eng)
  else ({ d with dirty := true }, pushDirtyModule eng path)

/-- The protocol/port pair a parent hands to operations on a submodule; the
root call of a claim passes the parent's pair (or `none` when the module has
no parent). -/
abbrev ParentPP := Option (Option String × Option String)

/-- `Module.send` (module.py lines 729-751): resolve the effective
protocol/port — the module's own, or the parent's when the module's port is
falsy — and enqueue a message if a port is resolved, else drop the call. -/
def Module.send (pp : ParentPP) (m : Module) (eng : EngineState)
    (address : String) (args : List Value) : EngineState :=
  let pr :=
    if optFalsy m.d.port then
      match pp with
      | some parentPP => (parentPP.1, parentPP.2)
      | none => (m.d.protocol, m.d.port)
    else (m.d.protocol, m.d.port)
  if optFalsy pr.2 then eng
  else { eng with messages := eng.messages ++ [⟨pr.1, pr.2, address, args⟩] }

/-- The protocol/port pair this module hands down when delegating to a
submodule. -/
def childPP (m : Module) : ParentPP :=
  some (m.d.protocol, m.d.port)

/-- The undecorated body of `Module.set` (module.py lines 274-295): resolve
the parameter locally; stop a running animation unless preserved; on
`force_send` with a wire address apply the value, transmit unconditionally
and snapshot it; otherwise apply the value and, only if it changed and the
parameter was not already pending, enqueue it in the dirty buffer and mark
the module dirty.  An unknown or non-string name is logged and a no-op. -/
def Module.set_raw (pp : ParentPP) (path : List String) (m : Module)
    (eng : EngineState) (name : Value) (rest : List Value)
    (force_send preserve_animation : Bool) : Module × EngineState :=
  match name with
  | .str n =>
    match lookupParam m.d.params n with
    | some parameter =>
      let parameter :=
        if parameter.animate_running && !preserve_animation then
          parameter.stop_animation
        else parameter
      if force_send && !optFalsy parameter.address then
        let r := parameter.set rest
        let eng1 := m.send pp eng (r.1.address.getD "") r.1.get_message_args
        let p2 := r.1.set_last_sent
        (Module.mk { m.d with params := updateParam m.d.params n p2 } m.subs, eng1)
      else
        let r := parameter.set rest
        if r.2 && !r.1.dirty then
          let p2 := { r.1 with dirty := true }
          let d1 := { m.d with params := updateParam m.d.params n p2,
                               dirtyBuffer := m.d.dirtyBuffer ++ [n] }
          let de := d1.set_dirty path eng
          (Module.mk de.1 m.subs, de.2)
        else
          (Module.mk { m.d with params := updateParam m.d.params n r.1 } m.subs, eng)
    | none => (m, eng)
  | _ => (m, eng)

mutual

/-- `Module.set` (module.py lines 249-295) together with its decorators,
modelled from the spec (section 4.3; `utils.py` is not under src/):
`force_mainthread` serializes the call onto the engine's write path (a
no-op in this sequential model) and `submodule_method(pattern_matching=True)`
resolves a leading submodule/alias name — delegating the call one level
down — or a `'*'` wildcard fanning the call out to every submodule;
otherwise the undecorated body runs.  Bracketed range patterns are part of
the spec's pattern language but are exercised by no claim and not modelled.
An empty argument list raises in Python and is exercised by no claim. -/
def Module.set (pp : ParentPP) (path : List String) (m : Module)
    (eng : EngineState) (args : List Value)
    (force_send preserve_animation : Bool) : Module × EngineState :=
  match m, args with
  | .mk dd ss, [] => (Module.mk dd ss, eng)
  | .mk dd ss, name :: rest =>
    match name with
    | .str h =>
      if h = "*" then
        let r := Module.setFanAll (some (dd.protocol, dd.port)) path ss eng rest
          force_send preserve_animation
        (Module.mk dd r.1, r.2)
      else
        match Module.setInSubs (some (dd.protocol, dd.port)) path
            (resolveAlias dd.aliases h) ss eng rest
            force_send preserve_animation with
        | some r => (Module.mk dd r.1, r.2)
        | none =>
            (Module.mk dd ss).set_raw pp path eng name rest
              force_send preserve_animation
    | _ =>
        (Module.mk dd ss).set_raw pp path eng name rest
          force_send preserve_animation
termination_by sizeOf m
decreasing_by all_goals (simp_wf <;> omega)

/-- Wildcard fan-out of `Module.set`: delegate the call to every
submodule in order, threading the engine state. -/
def Module.setFanAll (pp : ParentPP) (path : List String) (subs : List Module)
    (eng : EngineState) (args : List Value)
    (force_send preserve_animation : Bool) : List Module × EngineState :=
  match subs with
  | [] => ([], eng)
  | s :: ss =>
    let r1 := Module.set pp (path ++ [s.d.name]) s eng args
      force_send preserve_animation
    let r2 := Module.setFanAll pp path ss r1.2 args force_send preserve_animation
    (r1.1 :: r2.1, r2.2)
termination_by sizeOf subs
decreasing_by all_goals (simp_wf <;> omega)

/-- Literal-name delegation of `Module.set`: find the submodule of the
resolved name and delegate; `none` when no submodule matches. -/
def Module.setInSubs (pp : ParentPP) (path : List String) (target : String)
    (subs : List Module) (eng : EngineState) (args : List Value)
    (force_send preserve_animation : Bool) :
    Option (List Module × EngineState) :=
  match subs with
  | [] => none
  | s :: ss =>
    if s.d.name = target then
      let r := Module.set pp (path ++ [target]) s eng args
        force_send preserve_animation
      some (r.1 :: ss, r.2)
    else
      match Module.setInSubs pp path target ss eng args
          force_send preserve_animation with
      | some r => some (s :: r.1, r.2)
      | none => none
termination_by sizeOf subs
decreasing_by all_goals (simp_wf <;> omega)

end

mutual

/-- `Module.get` (module.py lines 202-227) with its
`submodule_method(pattern_matching=False)` decorator modelled from the spec
(section 4.3): a leading submodule/alias name delegates one level down
(exact resolution, no patterns); locally, return the parameter's value or
`none` (Python `None`, after an error log) when it does not exist. -/
def Module.get (m : Module) : List String → Option Value
  | [] => none
  | h :: rest =>
    match Module.getInSubs (resolveAlias m.d.aliases h) m.subs rest with
    | some r => r
    | none =>
      match lookupParam m.d.params h with
      | some p => some p.get
      | none => none

/-- Literal-name delegation of `Module.get`. -/
def Module.getInSubs (target : String) (subs : List Module) (args : List String) :
    Option (Option Value) :=
  match subs with
  | [] => none
  | s :: ss =>
    if s.d.name = target then some (Module.get s args)
    else Module.getInSubs target ss args

end

/-- The named branch of `Module.reset` (module.py lines 315-320): a
parameter with a `None` default is left alone; a list default is splatted
into `set`, a scalar default passed as a single argument. -/
def Module.resetNamed (pp : ParentPP) (path : List String) (m : Module)
    (eng : EngineState) (name : String) : Module × EngineState :=
  match lookupParam m.d.params name with
  | none => (m, eng)
  | some p =>
    match p.default with
    | none => (m, eng)
    | some (.list l) => Module.set pp path m eng (.str name :: l) false false
    | some v => Module.set pp path m eng [.str name, v] false false

mutual

/-- `Module.reset` (module.py lines 297-320): with a name, restore that
parameter to its default through `set` (no-op for a `None` default); with
no name, recurse into every submodule first, then reset every local
parameter by name. -/
def Module.reset (pp : ParentPP) (path : List String) (m : Module)
    (eng : EngineState) (name : Option String) : Module × EngineState :=
  match m, name with
  | .mk dd ss, some n => Module.resetNamed pp path (Module.mk dd ss) eng n
  | .mk dd ss, none =>
    let r := Module.resetSubs (some (dd.protocol, dd.port)) path ss eng
    let m1 := Module.mk dd r.1
    (dd.params.map fun p => p.name).foldl
      (fun acc n => Module.resetNamed pp path acc.1 acc.2 n) (m1, r.2)
termination_by sizeOf m
decreasing_by all_goals (simp_wf <;> omega)

/-- Submodule recursion of `Module.reset` with no name. -/
def Module.resetSubs (pp : ParentPP) (path : List String) (subs : List Module)
    (eng : EngineState) : List Module × EngineState :=
  match subs with
  | [] => ([], eng)
  | s :: ss =>
    let r1 := Module.reset pp (path ++ [s.d.name]) s eng none
    let r2 := Module.resetSubs pp path ss r1.2
    (r1.1 :: r2.1, r2.2)
termination_by sizeOf subs
decreasing_by all_goals (simp_wf <;> omega)

end

/-- Mutable module state of the local loop of `Module.update_animations`
(module.py lines 399-408), whose Python `for` semantics the loop below
makes explicit: the loop walks
`self.animations` by an internal index while `self.animations.remove(name)`
shortens the list in place, so removing the entry at the current position
makes the iteration skip the entry that slides into it.  A running
animation is advanced; if its value changed and it is not already pending
it is enqueued in the dirty buffer and the module marked dirty; a
non-running entry is removed (animation names are unique, so `remove`
deletes the scanned position).  A name without a parameter would raise
`KeyError` in Python; it is unreachable because `animate` inserts only
existing parameter names and `remove_parameter` drops them (module.py lines
199-200, 354-355). -/
structure AnimSt where
  params : List Parameter
  dirty : Bool
  dirtyBuffer : List String
  eng : EngineState

/-- The iteration of the local animation loop of module.py lines 399-408
(see `AnimSt`): the mutable module state alongside the list being iterated
and mutated, with the Python iterator's internal index. -/
def animLoop (path : List String) (now : ℚ) (st : AnimSt)
    (anims : List String) (i : Nat) : AnimSt × List String :=
  if hi : i < anims.length then
    let name := anims.get ⟨i, hi⟩
    match lookupParam st.params name with
    | none => animLoop path now st anims (i + 1)
    | some parameter =>
      if parameter.animate_running then
        let r := parameter.update_animation now
        if r.2 && !r.1.dirty then
          let p2 := { r.1 with dirty := true }
          let st1 : AnimSt :=
            { st with params := updateParam st.params name p2,
                      dirtyBuffer := st.dirtyBuffer ++ [name] }
          let st2 : AnimSt :=
            if st1.dirty then st1
            else { st1 with dirty := true, eng := pushDirtyModule st1.eng path }
          animLoop path now st2 anims (i + 1)
        else
          animLoop path now
            { st with params := updateParam st.params name r.1 } anims (i + 1)
      else
        animLoop path now st (anims.erase name) (i + 1)
  else (st, anims)
termination_by anims.length - i
decreasing_by
  all_goals simp_wf
  all_goals omega

mutual

/-- `Module.update_animations` (module.py lines 389-408): recurse into
every submodule first, then run the local animation loop. -/
def Module.update_animations (path : List String) (m : Module)
    (eng : EngineState) (now : ℚ) : Module × EngineState :=
  match m with
  | .mk dd ss =>
    let r := Module.updateAnimationsSubs path ss eng now
    let r2 := animLoop path now
      ⟨dd.params, dd.dirty, dd.dirtyBuffer, r.2⟩ dd.animations 0
    (Module.mk
      { dd with params := r2.1.params, dirty := r2.1.dirty,
                dirtyBuffer := r2.1.dirtyBuffer, animations := r2.2 }
      r.1, r2.1.eng)
termination_by sizeOf m

/-- Submodule recursion of `Module.update_animations`. -/
def Module.updateAnimationsSubs (path : List String) (subs : List Module)
    (eng : EngineState) (now : ℚ) : List Module × EngineState :=
  match subs with
  | [] => ([], eng)
  | s :: ss =>
    let r1 := Module.update_animations (path ++ [s.d.name]) s eng now
    let r2 := Module.updateAnimationsSubs path ss r1.2 now
    (r1.1 :: r2.1, r2.2)
termination_by sizeOf subs
decreasing_by all_goals (simp_wf <;> omega)

end

/-- The local animation-stopping loop of `stop_animate('*')` (module.py
lines 381-382): `self.parameters[name].stop_animation()` for every entry;
a stale entry raises `KeyError`. -/
def stopLocalAnims (ps : List Parameter) :
    List String → Except String (List Parameter)
  | [] => .ok ps
  | n :: rest =>
    match lookupParam ps n with
    | some p => stopLocalAnims (updateParam ps n p.stop_animation) rest
    | none => .error "KeyError"

/-- The undecorated body of `Module.stop_animate` (module.py lines 375-386).
For `'*'` the source iterates the submodules calling
`submodule.stop_animation('*')` — a method that exists on neither `Module`
nor, per the spec (sections 2, 4.6), on its `Sequencer`/`EventEmitter`
bases — so the first submodule raises `AttributeError`; with no submodules
the loop is empty and every local animation is stopped.  A plain name is
stopped if it is an active animation. -/
def Module.stop_animate_raw (m : Module) (name : String) :
    Except String Module :=
  if name = "*" then
    match m.subs with
    | [] =>
      (stopLocalAnims m.d.params m.d.animations).map fun ps =>
        Module.mk { m.d with params := ps } m.subs
    | _ :: _ => .error "AttributeError: Module object has no attribute stop_animation"
  else if m.d.animations.contains name then
    match lookupParam m.d.params name with
    | some p =>
        .ok (Module.mk
          { m.d with params := updateParam m.d.params name p.stop_animation }
          m.subs)
    | none => .error "KeyError"
  else .ok m

mutual

/-- `Module.stop_animate` (module.py lines 360-387) with its
`submodule_method(pattern_matching=False)` decorator modelled from the spec
(section 4.3): a leading submodule/alias name delegates one level down,
otherwise the undecorated body runs.  A non-string head matches nothing
and is a no-op; an empty argument list raises in Python. -/
def Module.stop_animate (m : Module) (args : List Value) :
    Except String Module :=
  match m, args with
  | .mk _ _, [] => .error "IndexError"
  | .mk dd ss, name :: _ =>
    match name with
    | .str h =>
      match Module.stopAnimateInSubs (resolveAlias dd.aliases h) ss
          (args.tail) with
      | some r => r.map fun ss1 => Module.mk dd ss1
      | none => (Module.mk dd ss).stop_animate_raw h
    | _ => .ok (Module.mk dd ss)
termination_by sizeOf m

/-- Literal-name delegation of `Module.stop_animate`. -/
def Module.stopAnimateInSubs (target : String) (subs : List Module)
    (args : List Value) : Option (Except String (List Module)) :=
  match subs with
  | [] => none
  | s :: ss =>
    if s.d.name = target then
      some ((Module.stop_animate s args).map fun s1 => s1 :: ss)
    else
      match Module.stopAnimateInSubs target ss args with
      | some r => some (r.map fun ss1 => s :: ss1)
      | none => none
termination_by sizeOf subs
decreasing_by all_goals (simp_wf <;> omega)

end

/-- One `[name, value...]` state entry (module.py lines 557-560): a list
value is splatted after the name, a scalar appended to it. -/
def stateEntry (p : Parameter) : List Value :=
  match p.get with
  | .list l => Value.str p.name :: l
  | v => [Value.str p.name, v]

mutual

/-- `Module.get_state` (module.py lines 533-567): one `[name, value...]`
entry per parameter, entries equal to the default omitted when requested,
followed by the submodules' entries prefixed by the submodule name. -/
def Module.get_state (m : Module) (omit_defaults : Bool) : List (List Value) :=
  match m with
  | .mk dd ss =>
    (dd.params.filterMap fun p =>
      if omit_defaults && decide (some p.get = p.default) then none
      else some (stateEntry p))
      ++ Module.getStateSubs ss omit_defaults
termination_by sizeOf m

/-- Submodule recursion of `Module.get_state`. -/
def Module.getStateSubs (subs : List Module) (omit_defaults : Bool) :
    List (List Value) :=
  match subs with
  | [] => []
  | s :: ss =>
    ((Module.get_state s omit_defaults).map fun x => Value.str s.d.name :: x)
      ++ Module.getStateSubs ss omit_defaults
termination_by sizeOf subs
decreasing_by all_goals (simp_wf <;> omega)

end

/-- One item of a state object: a `[name, value...]` entry or a free-form
comment string (module.py lines 626-634); `set_state` applies only the
list entries. -/
inductive StateItem where
  | entry : List Value → StateItem
  | comment : String → StateItem

/-- `Module.set_state` (module.py lines 569-584): apply every list entry of
the state through `set`, threading `force_send`. -/
def Module.set_state (pp : ParentPP) (path : List String) (m : Module)
    (eng : EngineState) (state : List StateItem) (force_send : Bool) :
    Module × EngineState :=
  state.foldl
    (fun acc data =>
      match data with
      | .entry l => Module.set pp path acc.1 acc.2 l force_send false
      | .comment _ => acc)
    (m, eng)

/-- The state object `get_state` hands to `set_state` (a list of list
entries, no comments). -/
def Module.stateItems (m : Module) (omit_defaults : Bool) : List StateItem :=
  (m.get_state omit_defaults).map StateItem.entry

/-- The argument list `Module.update_mapping` passes to `set` for one
destination: the destination path followed by the distributed value — a
Python list is splatted into several arguments, a scalar passed alone
(module.py lines 491-497). -/
def destArgs (pv : List String × Value) : List Value :=
  pv.1.map Value.str
    ++ (match pv.2 with
        | .list l => l
        | v => [v])

/-- The tail of `Module.update_mapping` (module.py lines 499-500): after
distribution, unlock the `k`-th mapping again only when the owning module's
own dirty flag is still clear. -/
def Module.unlockIfClean (k : Nat) (r : Module × EngineState) :
    Module × EngineState :=
  if r.1.d.dirty then r
  else
    match r.1.d.mappings.get? k with
    | some mp2 =>
        (Module.mk
          { r.1.d with
            mappings := r.1.d.mappings.set k { mp2 with locked := false } }
          r.1.subs, r.2)
    | none => r

/-- `Module.update_mapping` (module.py lines 477-500) on the module's `k`-th
mapping: if `Mapping.lock()` succeeds (the mapping was not locked), read all
source values through `Module.get`, run the transform, wrap a scalar result
when there is a single destination (Python indexes a non-list result and
raises for several destinations; no claim exercises that, a bare value
stands for itself), distribute each result to its destination through the
normal `Module.set` path, and unlock the mapping again only when the owning
module's own dirty flag is still clear afterwards. -/
def Module.update_mapping (pp : ParentPP) (path : List String) (m : Module)
    (eng : EngineState) (k : Nat) : Module × EngineState :=
  match m.d.mappings.get? k with
  | none => (m, eng)
  | some mapping =>
    if mapping.locked then (m, eng)
    else
      let m1 := Module.mk
        { m.d with mappings := m.d.mappings.set k { mapping with locked := true } }
        m.subs
      let src_values := mapping.src.map m1.get
      let result := mapping.transform src_values
      let dest_values : List Value :=
        if mapping.n_args = 1 then [result]
        else
          match result with
          | .list l => l
          | v => [v]
      let r := (mapping.dest.zip dest_values).foldl
        (fun acc pv => Module.set pp path acc.1 acc.2 (destArgs pv) false false)
        (m1, eng)
      Module.unlockIfClean k r

/-- `Module.check_mappings` (module.py lines 455-475) for the root module:
run `update_mapping` on every local mapping whose sources contain the
updated parameter's path.  The claims exercise this only on the engine-root
module, whose `parent_module` is `None`, so the upward propagation of lines
470-475 is absent. -/
def Module.check_mappings (pp : ParentPP) (path : List String) (m : Module)
    (eng : EngineState) (updated : List String) : Module × EngineState :=
  (List.range m.d.mappings.length).foldl
    (fun acc k =>
      match acc.1.d.mappings.get? k with
      | some mp =>
          if mp.matchSrc updated then Module.update_mapping pp path acc.1 acc.2 k
          else acc
      | none => acc)
    (m, eng)

/-- The drain loop of `Module.update_dirty_parameters` (module.py lines
715-723), with explicit fuel standing for the while-loop (every claim about
it holds for every fuel): pop the oldest dirty parameter; if `should_send()`
transmit when it has an address, snapshot it, dispatch the
`parameter_changed` event (absent from the model state) and run
`check_mappings` on its name; clear the parameter's dirty flag regardless —
after `check_mappings`, exactly as the source does on the parameter object. -/
def Module.drainDirty (pp : ParentPP) (path : List String) :
    Nat → Module → EngineState → Module × EngineState
  | 0, m, eng => (m, eng)
  | fuel + 1, m, eng =>
    match m.d.dirtyBuffer with
    | [] => (m, eng)
    | name :: restBuf =>
      let m0 := Module.mk { m.d with dirtyBuffer := restBuf } m.subs
      match lookupParam m0.d.params name with
      | none => Module.drainDirty pp path fuel m0 eng
      | some parameter =>
        if parameter.should_send then
          let eng1 :=
            if !optFalsy parameter.address then
              m0.send pp eng (parameter.address.getD "") parameter.get_message_args
            else eng
          let p1 := parameter.set_last_sent
          let m1 := Module.mk
            { m0.d with params := updateParam m0.d.params name p1 } m0.subs
          let r := m1.check_mappings pp path eng1 [name]
          let m3 :=
            match lookupParam r.1.d.params name with
            | some p2 =>
              Module.mk
                { r.1.d with params := updateParam r.1.d.params name { p2 with dirty := false } }
                r.1.subs
            | none => r.1
          Module.drainDirty pp path fuel m3 r.2
        else
          let m1 :=
            Module.mk
              { m0.d with params := updateParam m0.d.params name { parameter with dirty := false } }
              m0.subs
          Module.drainDirty pp path fuel m1 eng

/-- `Module.update_dirty_parameters` (module.py lines 709-727): drain the
dirty buffer, then unlock every mapping owned by the module and clear the
module's dirty flag. -/
def Module.update_dirty_parameters (pp : ParentPP) (path : List String)
    (fuel : Nat) (m : Module) (eng : EngineState) : Module × EngineState :=
  let r := Module.drainDirty pp path fuel m eng
  (Module.mk
    { r.1.d with mappings := r.1.d.mappings.map fun mp => { mp with locked := false },
                 dirty := false }
    r.1.subs, r.2)

/-- Whether a value is a Python list. -/
def Value.isList : Value → Bool
  | .list _ => true
  | _ => false

mutual

/-- Well-formedness of a module tree, everything the normal construction
path (`add_parameter`, `add_submodule`, `set_aliases` with sane names)
guarantees: parameters hold scalar values fitting their tags, parameter
names are unique and collide neither with submodule names, alias keys nor
the `'*'` wildcard, submodule names are unique and collide neither with
alias keys nor the wildcard, and the submodules are well-formed in turn. -/
def Module.WFb : Module → Bool
  | .mk dd ss =>
    dd.params.all (fun p => p.WFb && p.value.all fun v => !v.isList)
    && decide (dd.params.map Parameter.name).Nodup
    && decide (ss.map fun s => s.d.name).Nodup
    && dd.params.all (fun p =>
         !(ss.map fun s => s.d.name).contains p.name
         && !(dd.aliases.map fun a => a.1).contains p.name
         && !(p.name == "*"))
    && (ss.map fun s => s.d.name).all (fun n =>
         !(dd.aliases.map fun a => a.1).contains n && !(n == "*"))
    && Module.WFbList ss

/-- Well-formedness of a submodule list. -/
def Module.WFbList : List Module → Bool
  | [] => true
  | s :: rest => Module.WFb s && Module.WFbList rest

end

mutual

/-- No parameter of the module or of any submodule has a running
animation. -/
def Module.noAnimb : Module → Bool
  | .mk dd ss =>
    dd.params.all (fun p => !p.animate_running) && Module.noAnimbList ss

/-- `Module.noAnimb` over a submodule list. -/
def Module.noAnimbList : List Module → Bool
  | [] => true
  | s :: rest => Module.noAnimb s && Module.noAnimbList rest

end

/-- The observable core of a parameter: name, address, tags, static prefix,
default and current values — everything except the transient flush and
animation bookkeeping (dirty flag, last-sent snapshot, animation state). -/
def paramCoreEq (p q : Parameter) : Bool :=
  decide (p.name = q.name) && decide (p.address = q.address)
    && decide (p.types = q.types) && decide (p.static_args = q.static_args)
    && decide (p.default = q.default) && decide (p.value = q.value)

/-- `paramCoreEq` pointwise over parameter lists. -/
def paramsCoreEq : List Parameter → List Parameter → Bool
  | [], [] => true
  | p :: ps, q :: qs => paramCoreEq p q && paramsCoreEq ps qs
  | _, _ => false

mutual

/-- Two module trees agree on their observable core: same names and
aliases, pointwise core-equal parameters (in particular equal parameter
values), and core-equal submodules.  The transient flush bookkeeping
(dirty flags, buffers, snapshots, animation state, mappings' lock flags)
may differ. -/
def Module.coreEqb : Module → Module → Bool
  | .mk dd ss, .mk dd2 ss2 =>
    decide (dd.name = dd2.name) && decide (dd.aliases = dd2.aliases)
      && paramsCoreEq dd.params dd2.params
      && Module.coreEqbList ss ss2

/-- `Module.coreEqb` pointwise over submodule lists. -/
def Module.coreEqbList : List Module → List Module → Bool
  | [], [] => true
  | s :: ss, t :: tt => Module.coreEqb s t && Module.coreEqbList ss tt
  | _, _ => false

end

/-- The elements at odd positions of a list (what the mutating loop of
`update_animations` leaves behind when every scanned entry is removed). -/
def oddElems : List α → List α
  | [] => []
  | [_] => []
  | _ :: b :: rest => b :: oddElems rest

/-- The `animate_running` flag of a module's parameter. -/
def paramAnimOf (m : Module) (n : String) : Option Bool :=
  (lookupParam m.d.params n).map fun p => p.animate_running

/-- The current value list of a module's parameter. -/
def paramValueOf (m : Module) (n : String) : Option (List Value) :=
  (lookupParam m.d.params n).map fun p => p.value

/-!  Concrete instances used by witnesses and counterexamples. -/

/-- A fresh engine state. -/
def eng0 : EngineState := {}

/-- A single numeric parameter `x` at 0, clean. -/
def pW1 : Parameter := { name := "x", types := [.numT], value := [.num 0] }

/-- A one-parameter module. -/
def modW1 : Module := .mk { name := "w1", params := [pW1] } []

/-- Mapping-source parameter `x` at 1. -/
def pC2x : Parameter := { name := "x", types := [.numT], value := [.num 1] }

/-- Mapping-destination parameter `y` at 0, owned by a submodule. -/
def pC2y : Parameter := { name := "y", types := [.numT], value := [.num 0] }

/-- The destination submodule `s` of the mapping instance. -/
def subC2 : Module := .mk { name := "s", params := [pC2y] } []

/-- An identity mapping from local `x` to the submodule parameter
`('s', 'y')`. -/
def mapC2 : Mapping :=
  { src := [["x"]], dest := [["s", "y"]],
    transform := fun vs =>
      match vs with
      | [some v] => v
      | _ => .num 0 }

/-- A module owning the mapping, its source parameter and the destination
submodule; nothing dirty, mapping unlocked. -/
def modC2 : Module :=
  .mk { name := "m", params := [pC2x], mappings := [mapC2] } [subC2]

/-- A well-formed parameter with a running animation. -/
def pC6 : Parameter :=
  { name := "x", types := [.numT], value := [.num 1], animate_running := true }

/-- A well-formed module with a running animation on `x`. -/
def modC6 : Module := .mk { name := "m", params := [pC6], animations := ["x"] } []

/-- A two-slot parameter with a non-trivial default, used by the round-trip
witness. -/
def pC6w : Parameter :=
  { name := "a", types := [.numT, .strT], value := [.num 2, .str "hi"],
    default := some (.num 7) }

/-- An addressed submodule parameter for the round-trip witness. -/
def subC6w : Module :=
  .mk { name := "sub",
        params := [{ name := "b", types := [.numT], value := [.num 3],
                     address := some "/b", last_sent := some [.num 3] }] } []

/-- A well-formed two-level module with an alias, no running animations. -/
def modC6w : Module :=
  .mk { name := "m", params := [pC6w], aliases := [("al", "sub")] } [subC6w]

/-- Idle animated parameter `a`. -/
def pC7a : Parameter := { name := "a", types := [.numT], value := [.num 0] }

/-- Idle animated parameter `b`. -/
def pC7b : Parameter := { name := "b", types := [.numT], value := [.num 0] }

/-- A module whose two consecutive animation entries are both Idle. -/
def modC7 : Module :=
  .mk { name := "m", params := [pC7a, pC7b], animations := ["a", "b"] } []

/-- A bare submodule. -/
def subC8 : Module := .mk { name := "s" } []

/-- A module with one submodule. -/
def modC8 : Module := .mk { name := "m" } [subC8]

/-- A parameter whose default is `None`, carrying transient state. -/
def pC10 : Parameter :=
  { name := "n", types := [.numT], value := [.num 5], dirty := true,
    last_sent := some [.num 4] }

/-- A parameter with a non-`None` default. -/
def pC10d : Parameter :=
  { name := "d", types := [.numT], value := [.num 9], default := some (.num 1) }

/-- A module holding one default-less and one defaulted parameter. -/
def modC10 : Module := .mk { name := "m", params := [pC10, pC10d] } []

/-- Engine at start: tempo 120, one tempo-map entry. -/
def engT0 : TEngine :=
  { current_time := 0, tempo := 120, tempo_map := [⟨0, 120, 4⟩] }

/-- Engine one second later, after the tempo dropped to 60. -/
def engT1 : TEngine :=
  { current_time := 1000000000, tempo := 60,
    tempo_map := [⟨0, 120, 4⟩, ⟨1000000000, 60, 4⟩] }

/-- A timer mid-way through a 4-beat wait started at tempo 120: the wait
spans 2 s, so `end_time` is 2 s with 1 s elapsed. -/
def timerC3 : Timer :=
  { start_time := 0, tempo := 120, end_time := 2000000000,
    is_beat_waiting := true }

/-- Engine at t = 20 s with tempo-map entries `(0 s, 120 bpm)` and
`(10 s, 60 bpm)`. -/
def engC4 : TEngine :=
  { current_time := 20000000000, tempo := 60,
    tempo_map := [⟨0, 120, 4⟩, ⟨10000000000, 60, 4⟩] }

/-!  Theorems. -/

@[simp] theorem Module.d_mk (dd : ModuleData) (ss : List Module) :
    (Module.mk dd ss).d = dd := rfl

@[simp] theorem Module.subs_mk (dd : ModuleData) (ss : List Module) :
    (Module.mk dd ss).subs = ss := rfl

theorem Module.mk_d_subs (m : Module) : Module.mk m.d m.subs = m := by
  cases m; rfl

theorem beatSum_eq_specBeatSum (now : ℚ) (tm : List TempoEntry) :
    Timer.beatSum now tm = specBeatSum now tm := by
  induction tm with
  | nil => simp [Timer.beatSum, specBeatSum, specSegments]
  | cons e rest ih =>
      cases rest with
      | nil => simp [Timer.beatSum, specBeatSum, specSegments]
      | cons e2 rest2 =>
          simp only [Timer.beatSum, specBeatSum, specSegments, List.map_cons,
            List.sum_cons] at ih ⊢
          rw [ih]

theorem beatSum_nonneg (now : ℚ) (tm : List TempoEntry)
    (hsort : tm.Chain' fun a b => a.time ≤ b.time)
    (h : ∀ e ∈ tm, 0 ≤ e.tempo ∧ e.time ≤ now) :
    0 ≤ Timer.beatSum now tm := by
  induction tm with
  | nil => simp [Timer.beatSum]
  | cons e rest ih =>
      cases rest with
      | nil =>
          have he := h e (by simp)
          have h1 : (0:ℚ) ≤ now - e.time := by linarith [he.2]
          simp only [Timer.beatSum]
          exact mul_nonneg
            (div_nonneg (div_nonneg h1 (by norm_num)) (by norm_num)) he.1
      | cons e2 rest2 =>
          have he := h e (by simp)
          have h12 : e.time ≤ e2.time := (List.chain'_cons.mp hsort).1
          have h1 : (0:ℚ) ≤ e2.time - e.time := by linarith
          have ih2 := ih (List.chain'_cons.mp hsort).2
            (fun x hx => h x (List.mem_cons_of_mem _ hx))
          simp only [Timer.beatSum]
          have hseg : (0:ℚ) ≤ (e2.time - e.time) / 1000000000 / 60 * e.tempo :=
            mul_nonneg
              (div_nonneg (div_nonneg h1 (by norm_num)) (by norm_num)) he.1
          linarith

theorem pyInt_eq_floor (q : ℚ) (h : 0 ≤ q) : pyInt q = ⌊q⌋ := by
  simp only [pyInt, if_neg (not_lt.mpr h)]

/-- Claim C4: `get_current_beat` integrates the tempo map from engine start
to now — each entry's segment (the final one running to `current_time`)
contributes `elapsed_seconds/60 × tempo` beats, the contributions are
summed and the sum floored to an integer; with entries
`[(t=0, 120 bpm), (t=10 s, 60 bpm)]` evaluated at `t=20 s` the result
is 30. -/
theorem c4_get_current_beat :
    (∀ (now : ℚ) (tm : List TempoEntry),
        Timer.beatSum now tm = specBeatSum now tm)
    ∧ (∀ eng : TEngine,
        eng.tempo_map.Chain' (fun a b => a.time ≤ b.time) →
        (∀ e ∈ eng.tempo_map, 0 ≤ e.tempo ∧ e.time ≤ eng.current_time) →
        Timer.get_current_beat eng
          = ⌊specBeatSum eng.current_time eng.tempo_map⌋)
    ∧ Timer.get_current_beat engC4 = 30 := by
  refine ⟨beatSum_eq_specBeatSum, fun eng hsort h => ?_, ?_⟩
  · have hnn := beatSum_nonneg eng.current_time eng.tempo_map hsort h
    rw [Timer.get_current_beat, pyInt_eq_floor _ hnn, beatSum_eq_specBeatSum]
  · show Timer.get_current_beat engC4 = 30
    rw [Timer.get_current_beat]
    have h30 : Timer.beatSum engC4.current_time engC4.tempo_map = 30 := by
      norm_num [Timer.beatSum, engC4]
    rw [h30, pyInt_eq_floor _ (by norm_num)]
    rw [show (30:ℚ) = ((30:ℤ):ℚ) by norm_num]
    exact Int.floor_intCast 30

/-- Claim C4 witness: the floor characterization applied to the concrete
two-entry tempo map. -/
theorem c4_witness :
    Timer.get_current_beat engC4 = ⌊specBeatSum engC4.current_time engC4.tempo_map⌋ :=
  c4_get_current_beat.2.1 engC4
    (by simp [engC4])
    (by intro e he
        simp only [engC4, List.mem_cons, List.not_mem_nil, or_false] at he
        rcases he with rfl | rfl <;>
          exact ⟨by norm_num, by norm_num [engC4]⟩)

/-- Claim C3: for a beat-waiting timer, `update_tempo` recomputes
`end_time` as `current_time + remaining_time × (old_tempo/new_tempo)` and
always refreshes the stored tempo snapshot; a 4-beat wait at tempo 120
that is 50% elapsed when tempo drops to 60 has its remaining wall time
exactly doubled while the remaining beat count stays 2. -/
theorem c3_update_tempo :
    (∀ (t : Timer) (eng : TEngine), (t.update_tempo eng).tempo = eng.tempo)
    ∧ (∀ (t : Timer) (eng : TEngine),
        t.is_beat_waiting = true → t.tempo ≠ 0 → eng.tempo ≠ 0 →
        (t.update_tempo eng).end_time
          = eng.current_time
            + (t.end_time - eng.current_time) * (t.tempo / eng.tempo))
    ∧ (timerC3.update_tempo engT1).end_time - engT1.current_time
        = 2 * (timerC3.end_time - engT1.current_time)
    ∧ ((timerC3.update_tempo engT1).end_time - engT1.current_time)
        / 1000000000 / 60 * (timerC3.update_tempo engT1).tempo = 2 := by
  refine ⟨?_, ?_,
    by norm_num [Timer.update_tempo, timerC3, engT1],
    by norm_num [Timer.update_tempo, timerC3, engT1]⟩
  · intro t eng
    simp only [Timer.update_tempo]
  · intro t eng hb ht he
    simp only [Timer.update_tempo, hb, if_true]
    field_simp

/-- Claim C3 witness: the end-time formula applied to the mid-wait timer
and the tempo-60 engine. -/
theorem c3_witness :
    (timerC3.update_tempo engT1).end_time
      = engT1.current_time
        + (timerC3.end_time - engT1.current_time) * (timerC3.tempo / engT1.tempo) :=
  c3_update_tempo.2.1 timerC3 engT1 rfl (by norm_num [timerC3])
    (by norm_num [engT1])

theorem waitSetup_eq (t : Timer) (duration d : ℚ) (mode : String)
    (h : Timer.durationToNs t duration mode = some d) :
    Timer.waitSetup t duration mode
      = some { t with end_time := t.start_time + d,
                      is_beat_waiting := Timer.modeChar0 mode 'b' } := by
  simp [Timer.waitSetup, h]

theorem wait_eq (t : Timer) (duration d : ℚ) (mode : String)
    (h : Timer.durationToNs t duration mode = some d) :
    Timer.wait t duration mode
      = { t with start_time := t.start_time + d,
                 end_time := t.start_time + d,
                 is_beat_waiting := false } := by
  simp [Timer.wait, waitSetup_eq t duration d mode h, Timer.waitFinish]

theorem durationToNs_tempo (t t2 : Timer) (duration : ℚ) (mode : String)
    (h : t2.tempo = t.tempo) :
    Timer.durationToNs t2 duration mode = Timer.durationToNs t duration mode := by
  simp [Timer.durationToNs, h]

/-- Claim C5: for a recognized mode, `wait` sets
`end_time = start_time + duration` converted to nanoseconds (beat durations
via `60/tempo` seconds per beat), raises `is_beat_waiting` exactly for a
beat-relative mode, polls until `current_time ≥ end_time − MAINLOOP_PERIOD`,
and on completion rebases `start_time = end_time`, so consecutive waits
accumulate no drift. -/
theorem c5_wait :
    (∀ (t : Timer) (duration : ℚ) (mode : String),
        Timer.modeChar0 mode 'b' = true →
        Timer.durationToNs t duration mode
          = some (duration * (60 / t.tempo) * 1000000000))
    ∧ (∀ (t : Timer) (duration d : ℚ) (mode : String),
        Timer.durationToNs t duration mode = some d →
        Timer.waitSetup t duration mode
          = some { t with end_time := t.start_time + d,
                          is_beat_waiting := Timer.modeChar0 mode 'b' })
    ∧ (∀ current_time end_time : ℚ,
        Timer.waitPollContinue current_time end_time = false
          ↔ end_time - MAINLOOP_PERIOD_NS ≤ current_time)
    ∧ (∀ (clock : List ℚ) (end_time c : ℚ),
        Timer.waitExitTime clock end_time = some c →
        end_time - MAINLOOP_PERIOD_NS ≤ c)
    ∧ (∀ (t : Timer) (duration d : ℚ) (mode : String),
        Timer.durationToNs t duration mode = some d →
        Timer.wait t duration mode
          = { t with start_time := t.start_time + d,
                     end_time := t.start_time + d,
                     is_beat_waiting := false })
    ∧ (∀ (t : Timer) (dur1 dur2 d1 d2 : ℚ) (mode1 mode2 : String),
        Timer.durationToNs t dur1 mode1 = some d1 →
        Timer.durationToNs t dur2 mode2 = some d2 →
        (Timer.wait (Timer.wait t dur1 mode1) dur2 mode2).start_time
          = t.start_time + d1 + d2) := by
  refine ⟨?_, waitSetup_eq, ?_, ?_, wait_eq, ?_⟩
  · intro t duration mode hb
    simp only [Timer.durationToNs, hb, if_true, Option.some.injEq]
    ring
  · intro c endT
    simp [Timer.waitPollContinue, not_lt]
  · intro clock endT c h
    have hp := List.find?_some h
    simp only [Bool.not_eq_eq_eq_not, Bool.not_true] at hp
    have := (by simp [Timer.waitPollContinue, not_lt] :
      Timer.waitPollContinue c endT = false ↔ endT - MAINLOOP_PERIOD_NS ≤ c)
    exact this.mp (by simpa using hp)
  · intro t dur1 dur2 d1 d2 mode1 mode2 h1 h2
    have hw1 := wait_eq t dur1 d1 mode1 h1
    have htempo : (Timer.wait t dur1 mode1).tempo = t.tempo := by
      rw [hw1]
    have h2b : Timer.durationToNs (Timer.wait t dur1 mode1) dur2 mode2 = some d2 := by
      rw [durationToNs_tempo t (Timer.wait t dur1 mode1) dur2 mode2 htempo]
      exact h2
    rw [wait_eq _ dur2 d2 mode2 h2b, hw1]

/-- Claim C5 witness: a 1-beat wait at tempo 120 followed by a 2-second
wait on the concrete timer. -/
theorem c5_witness :
    Timer.wait (Timer.reset engT0) 1 "beats"
        = { start_time := 500000000, tempo := 120,
            end_time := 500000000, is_beat_waiting := false }
      ∧ (Timer.wait (Timer.wait (Timer.reset engT0) 1 "beats") 2 "seconds").start_time
          = 2500000000 := by
  have hbb : Timer.modeChar0 "beats" 'b' = true := by decide
  have hsb : Timer.modeChar0 "seconds" 'b' = false := by decide
  have hss : Timer.modeChar0 "seconds" 's' = true := by decide
  have hd1 : Timer.durationToNs (Timer.reset engT0) 1 "beats"
      = some 500000000 := by
    norm_num [Timer.durationToNs, hbb, Timer.reset, engT0]
  have hd2 : Timer.durationToNs (Timer.reset engT0) 2 "seconds"
      = some 2000000000 := by
    norm_num [Timer.durationToNs, hsb, hss, Timer.reset, engT0]
  constructor
  · rw [c5_wait.2.2.2.2.1 (Timer.reset engT0) 1 500000000 "beats" hd1]
    norm_num [Timer.reset, engT0]
  · rw [c5_wait.2.2.2.2.2 (Timer.reset engT0) 1 2 500000000 2000000000
      "beats" "seconds" hd1 hd2]
    norm_num [Timer.reset, engT0]

theorem resolveAlias_not_key (al : List (String × String)) (h : String)
    (hk : ∀ a ∈ al, a.1 ≠ h) : resolveAlias al h = h := by
  simp only [resolveAlias]
  have : al.find? (fun a => a.1 = h) = none :=
    List.find?_eq_none.mpr fun a ha => by simp [hk a ha]
  rw [this]

theorem stopAnimateInSubs_not_found (target : String) (subs : List Module)
    (args : List Value) (h : ∀ s ∈ subs, s.d.name ≠ target) :
    Module.stopAnimateInSubs target subs args = none := by
  induction subs with
  | nil => simp [Module.stopAnimateInSubs]
  | cons s ss ih =>
      rw [Module.stopAnimateInSubs]
      rw [if_neg (h s (by simp))]
      rw [ih fun x hx => h x (List.mem_cons_of_mem _ hx)]

/-- Claim C8: `stop_animate('*')` on a module with at least one submodule.
The claim states it stops every running animation of the subtree and
completes without raising; the code (module.py line 380) instead calls the
nonexistent method `stop_animation` on the first submodule and raises
`AttributeError`, stopping nothing. -/
theorem c8_stop_animate_star (m : Module)
    (hsub : m.subs ≠ [])
    (hstar_s : ∀ s ∈ m.subs, s.d.name ≠ "*")
    (hstar_a : ∀ a ∈ m.d.aliases, a.1 ≠ "*") :
    m.stop_animate [.str "*"]
      = .error "AttributeError: Module object has no attribute stop_animation" := by
  cases m with
  | mk dd ss =>
    rw [Module.stop_animate]
    simp only [List.tail_cons]
    rw [resolveAlias_not_key dd.aliases "*" hstar_a]
    rw [stopAnimateInSubs_not_found "*" ss [] hstar_s]
    rw [Module.stop_animate_raw]
    cases ss with
    | nil => exact absurd rfl hsub
    | cons s ss2 => simp [Module.subs]

/-- Claim C8 witness: the `AttributeError` evaluated on a concrete module
with one submodule. -/
theorem c8_witness :
    modC8.subs ≠ []
      ∧ modC8.stop_animate [.str "*"]
          = .error "AttributeError: Module object has no attribute stop_animation" :=
  ⟨by simp [modC8], c8_stop_animate_star modC8 (by simp [modC8])
    (by intro s hs
        simp only [modC8, subC8, Module.subs, List.mem_cons,
          List.not_mem_nil, or_false] at hs
        subst hs
        simp [Module.d])
    (by intro a ha; simp [modC8, Module.d] at ha)⟩

theorem Parameter.name_set (p : Parameter) (vals : List Value) :
    (Parameter.set p vals).1.name = p.name := by
  simp only [Parameter.set]
  split <;> rfl

theorem lookupParam_updateParam_ne (ps : List Parameter) (n h : String)
    (p' : Parameter) (hne : n ≠ h) (hp : p'.name = h) :
    lookupParam (updateParam ps h p') n = lookupParam ps n := by
  induction ps with
  | nil => rfl
  | cons q rest ih =>
      simp only [updateParam]
      by_cases hq : q.name = h
      · rw [if_pos hq]
        simp only [lookupParam]
        rw [List.find?_cons_of_neg _ (by simp [hp]; exact fun e => hne e.symm),
          List.find?_cons_of_neg _ (by simp [hq]; exact fun e => hne e.symm)]
      · rw [if_neg hq]
        simp only [lookupParam]
        by_cases hqn : q.name = n
        · rw [List.find?_cons_of_pos _ (by simp [hqn]),
            List.find?_cons_of_pos _ (by simp [hqn])]
        · rw [List.find?_cons_of_neg _ (by simp [hqn]),
            List.find?_cons_of_neg _ (by simp [hqn])]
          exact ih

theorem lookupParam_set_raw_ne (pp : ParentPP) (path : List String)
    (m : Module) (eng : EngineState) (name : Value) (rest : List Value)
    (fs pa : Bool) (n : String)
    (hhead : ∀ h : String, name = .str h → h ≠ n) :
    lookupParam ((m.set_raw pp path eng name rest fs pa).1).d.params n
      = lookupParam m.d.params n := by
  cases name with
  | num q => rfl
  | list l => rfl
  | str h =>
      have hne : ¬n = h := fun e => hhead h rfl e.symm
      simp only [Module.set_raw]
      cases hl : lookupParam m.d.params h with
      | none => rfl
      | some p =>
          have hpn : p.name = h := by simpa using List.find?_some hl
          simp only [ModuleData.set_dirty]
          split <;> split <;>
            first
            | · split <;>
                first
                | · split <;>
                    (simp only [Module.d_mk]
                     exact lookupParam_updateParam_ne _ _ _ _ hne
                       (by simp [Parameter.name_set, Parameter.set_last_sent,
                             Parameter.stop_animation, hpn]))
                | · simp only [Module.d_mk]
                    exact lookupParam_updateParam_ne _ _ _ _ hne
                      (by simp [Parameter.name_set, Parameter.set_last_sent,
                            Parameter.stop_animation, hpn])
            | · simp only [Module.d_mk]
                exact lookupParam_updateParam_ne _ _ _ _ hne
                  (by simp [Parameter.name_set, Parameter.set_last_sent,
                        Parameter.stop_animation, hpn])

theorem lookupParam_set_ne (pp : ParentPP) (path : List String)
    (m : Module) (eng : EngineState) (args : List Value) (fs pa : Bool)
    (n : String)
    (hhead : ∀ h : String, args.head? = some (.str h) → h ≠ n) :
    lookupParam (((Module.set pp path m eng args fs pa).1).d.params) n
      = lookupParam m.d.params n := by
  cases m with
  | mk dd ss =>
    cases args with
    | nil => rw [Module.set]
    | cons name rest =>
        cases name with
        | num q =>
            rw [Module.set]
            · exact lookupParam_set_raw_ne _ _ _ _ _ _ _ _ _
                fun h hh => by cases hh
            · intro n2 hh
              cases hh
        | list l =>
            rw [Module.set]
            · exact lookupParam_set_raw_ne _ _ _ _ _ _ _ _ _
                fun h hh => by cases hh
            · intro n2 hh
              cases hh
        | str h =>
            rw [Module.set]
            split
            · rfl
            · cases hs : Module.setInSubs (some (dd.protocol, dd.port)) path
                  (resolveAlias dd.aliases h) ss eng rest fs pa with
              | some r => rfl
              | none =>
                  exact lookupParam_set_raw_ne _ _ _ _ _ _ _ _ _
                    fun h2 hh => by
                      injection hh with he
                      exact he ▸ hhead h rfl

theorem resetNamed_default_none (pp : ParentPP) (path : List String)
    (m : Module) (eng : EngineState) (n : String) (p : Parameter)
    (hp : lookupParam m.d.params n = some p) (hd : p.default = none) :
    Module.resetNamed pp path m eng n = (m, eng) := by
  simp [Module.resetNamed, hp, hd]

theorem resetNamed_lookup_ne (pp : ParentPP) (path : List String)
    (m : Module) (eng : EngineState) (x n : String) (hne : x ≠ n) :
    lookupParam ((Module.resetNamed pp path m eng x).1).d.params n
      = lookupParam m.d.params n := by
  simp only [Module.resetNamed]
  split
  · rfl
  · split
    · rfl
    · apply lookupParam_set_ne
      intro h hh
      simp only [List.head?, Option.some.injEq, Value.str.injEq] at hh
      exact hh ▸ hne
    · apply lookupParam_set_ne
      intro h hh
      simp only [List.head?, Option.some.injEq, Value.str.injEq] at hh
      exact hh ▸ hne

theorem resetFold_lookup (pp : ParentPP) (path : List String)
    (names : List String) :
    ∀ (m : Module) (eng : EngineState) (n : String) (p : Parameter),
    lookupParam m.d.params n = some p → p.default = none →
    lookupParam
      ((names.foldl (fun acc x => Module.resetNamed pp path acc.1 acc.2 x)
        (m, eng)).1).d.params n = some p := by
  induction names with
  | nil => intro m eng n p hp _; exact hp
  | cons x rest ih =>
      intro m eng n p hp hd
      simp only [List.foldl_cons]
      by_cases hx : x = n
      · subst hx
        rw [resetNamed_default_none pp path m eng x p hp hd]
        exact ih m eng x p hp hd
      · have hl := resetNamed_lookup_ne pp path m eng x n hx
        exact ih _ _ n p (hl.trans hp) hd

/-- Claim C10: a parameter whose default is `None` is never touched by
`reset` — calling `reset` with its name is a complete no-op (module and
engine state unchanged), and calling `reset` with no name leaves the
parameter's record (value, dirty state, last-sent snapshot) unchanged. -/
theorem c10_reset_default_none (pp : ParentPP) (path : List String)
    (m : Module) (eng : EngineState) (n : String) (p : Parameter)
    (hp : lookupParam m.d.params n = some p) (hd : p.default = none) :
    Module.reset pp path m eng (some n) = (m, eng)
    ∧ lookupParam ((Module.reset pp path m eng none).1).d.params n = some p := by
  constructor
  · cases m with
    | mk dd ss =>
        rw [Module.reset]
        exact resetNamed_default_none pp path (Module.mk dd ss) eng n p hp hd
  · cases m with
    | mk dd ss =>
        rw [Module.reset]
        exact resetFold_lookup _ _ _ _ _ n p hp hd

/-- Claim C10 witness: both reset forms applied to a concrete module whose
parameter `n` has a `None` default. -/
theorem c10_witness :
    Module.reset none ["m"] modC10 eng0 (some "n") = (modC10, eng0)
    ∧ lookupParam ((Module.reset none ["m"] modC10 eng0 none).1).d.params "n"
        = some pC10 :=
  c10_reset_default_none none ["m"] modC10 eng0 "n" pC10 rfl rfl

/-- Claim C7 counterexample: a module whose two consecutive animation
entries `a`, `b` both became Idle.  The claim says both are removed during
the pass; the loop of module.py lines 399-408 removes `a` and, because
`remove` mutates the list it is iterating, skips and keeps `b`. -/
theorem c7_counterexample :
    paramAnimOf modC7 "a" = some false
    ∧ paramAnimOf modC7 "b" = some false
    ∧ ((Module.update_animations ["m"] modC7 eng0 0).1).d.animations = ["b"] := by
  refine ⟨rfl, rfl, ?_⟩
  rw [show modC7
      = Module.mk { name := "m", params := [pC7a, pC7b],
                    animations := ["a", "b"] } [] from rfl]
  rw [Module.update_animations, Module.updateAnimationsSubs]
  rw [animLoop]
  norm_num [lookupParam, List.find?, pC7a, pC7b]
  rw [animLoop]
  norm_num

theorem animLoop_idle (path : List String) (now : ℚ) (st : AnimSt) :
    ∀ (k : Nat) (pref suff : List String), suff.length ≤ k →
    (pref ++ suff).Nodup →
    (∀ n ∈ suff, ∃ p, lookupParam st.params n = some p
      ∧ p.animate_running = false) →
    animLoop path now st (pref ++ suff) pref.length = (st, pref ++ oddElems suff) := by
  intro k
  induction k with
  | zero =>
      intro pref suff hlen hnd hidle
      have hnil : suff = [] := List.eq_nil_of_length_eq_zero (Nat.le_zero.mp hlen)
      subst hnil
      rw [animLoop]
      simp [oddElems]
  | succ k ih =>
      intro pref suff hlen hnd hidle
      cases suff with
      | nil =>
          rw [animLoop]
          simp [oddElems]
      | cons a tail =>
          rw [animLoop]
          have hi : pref.length < (pref ++ a :: tail).length := by simp
          rw [dif_pos hi]
          have hname : (pref ++ a :: tail).get ⟨pref.length, hi⟩ = a := by
            rw [List.get_eq_getElem]
            exact List.getElem_of_append rfl rfl
          rw [hname]
          obtain ⟨p, hp, hrun⟩ := hidle a (by simp)
          simp only [hp, hrun, Bool.false_eq_true, if_false]
          have ha_pref : a ∉ pref := by
            intro hmem
            have := (List.nodup_append.mp hnd).2.2
            exact this hmem (by simp)
          have herase : (pref ++ a :: tail).erase a = pref ++ tail := by
            rw [List.erase_append_right _ ha_pref, List.erase_cons_head]
          rw [herase]
          cases tail with
          | nil =>
              rw [animLoop]
              simp [oddElems]
          | cons b tail2 =>
              have hsplit : pref ++ b :: tail2 = (pref ++ [b]) ++ tail2 := by simp
              have hplen : pref.length + 1 = (pref ++ [b]).length := by simp
              rw [hsplit, hplen]
              rw [ih (pref ++ [b]) tail2
                (by simp at hlen ⊢; omega)
                (by
                  have hsub : (pref ++ b :: tail2).Sublist (pref ++ a :: b :: tail2) :=
                    List.Sublist.append_left (List.sublist_cons_self _ _) pref
                  have := hnd.sublist hsub
                  simpa using this
                )
                (fun n hn => hidle n (by simp [hn]))]
              simp [oddElems]

/-- Claim C7 (amended): `update_animations` recurses into submodules first
and then advances the module's own animations; an animation whose state
became Idle is removed during the pass unless it immediately follows an
entry removed in the same pass — the loop mutates the list it iterates, so
the entry sliding into the removed position is skipped and only removed on
a later pass.  In particular, when every entry is Idle, exactly the
even-positioned entries are removed and the odd-positioned ones survive. -/
theorem c7_idle_removal (path : List String) (now : ℚ) (m : Module)
    (hsubs : m.subs = [])
    (hnd : m.d.animations.Nodup)
    (hidle : ∀ n ∈ m.d.animations, ∃ p, lookupParam m.d.params n = some p
      ∧ p.animate_running = false) :
    ∀ eng : EngineState,
      Module.update_animations path m eng now
        = (Module.mk { m.d with animations := oddElems m.d.animations } m.subs,
           eng) := by
  intro eng
  cases m with
  | mk dd ss =>
    simp only [Module.d_mk, Module.subs_mk] at hsubs hnd hidle ⊢
    subst hsubs
    rw [Module.update_animations, Module.updateAnimationsSubs]
    have h0 := animLoop_idle path now
      ⟨dd.params, dd.dirty, dd.dirtyBuffer, eng⟩
      dd.animations.length [] dd.animations (le_refl _)
      (by simpa using hnd) (by simpa using hidle)
    simp only [List.nil_append, List.length_nil] at h0
    rw [h0]

/-- Claim C7 witness: the all-Idle removal pattern applied to the concrete
two-entry module — `a` is removed, `b` survives the pass. -/
theorem c7_witness :
    Module.update_animations ["m"] modC7 eng0 0
      = (Module.mk { name := "m", params := [pC7a, pC7b],
                     animations := ["b"] } [], eng0) := by
  have h := c7_idle_removal ["m"] 0 modC7 rfl (by decide)
    (by
      intro n hn
      simp only [modC7, Module.d_mk] at hn
      rcases List.mem_cons.mp hn with rfl | hn2
      · exact ⟨pC7a, rfl, rfl⟩
      · rcases List.mem_cons.mp hn2 with rfl | hn3
        · exact ⟨pC7b, rfl, rfl⟩
        · cases hn3)
    eng0
  rw [h]
  rfl

theorem updateParam_self (ps : List Parameter) (n : String) (p : Parameter)
    (hp : lookupParam ps n = some p) : updateParam ps n p = ps := by
  induction ps with
  | nil => rfl
  | cons q rest ih =>
      simp only [lookupParam] at hp ih
      by_cases hq : q.name = n
      · rw [List.find?_cons_of_pos _ (by simp [hq])] at hp
        cases hp
        simp [updateParam, hq]
      · rw [List.find?_cons_of_neg _ (by simp [hq])] at hp
        simp only [updateParam, if_neg hq]
        rw [ih hp]

theorem lookupParam_updateParam_eq (ps : List Parameter) (n : String)
    (q : Parameter) (hq : q.name = n) :
    ∀ p, lookupParam ps n = some p →
    lookupParam (updateParam ps n q) n = some q := by
  induction ps with
  | nil => intro p hp; cases hp
  | cons r rest ih =>
      intro p hp
      by_cases hr : r.name = n
      · simp only [updateParam, if_pos hr, lookupParam]
        rw [List.find?_cons_of_pos _ (by simp [hq])]
      · simp only [updateParam, if_neg hr, lookupParam]
        rw [List.find?_cons_of_neg _ (by simp [hr])]
        simp only [lookupParam] at hp
        rw [List.find?_cons_of_neg _ (by simp [hr])] at hp
        exact ih p hp

theorem Parameter.set_types (p : Parameter) (vals : List Value) :
    (p.set vals).1.types = p.types := by
  simp only [Parameter.set]
  split <;> rfl

theorem Parameter.set_anim (p : Parameter) (vals : List Value) :
    (p.set vals).1.animate_running = p.animate_running := by
  simp only [Parameter.set]
  split <;> rfl

theorem Parameter.set_of_len_ne (p : Parameter) (vals : List Value)
    (h : ¬vals.length = p.types.length) : p.set vals = (p, false) := by
  simp [Parameter.set, h]

theorem Parameter.set_of_fixed (p : Parameter) (vals : List Value)
    (h : vals.length = p.types.length)
    (hv : ((p.types.zip vals).map fun tv => coerceVal tv.1 tv.2) = p.value) :
    p.set vals = (p, false) := by
  simp [Parameter.set, h, hv]

/-- A local non-force `set` whose target parameter is idle and whose
`Parameter.set` reports no change is a complete no-op: nothing is enqueued,
nothing marked dirty, nothing sent. -/
theorem set_raw_noop (pp : ParentPP) (path : List String) (m : Module)
    (eng : EngineState) (n : String) (vals : List Value) (q : Parameter)
    (hq : lookupParam m.d.params n = some q)
    (hanim : q.animate_running = false)
    (hset : q.set vals = (q, false)) :
    m.set_raw pp path eng (.str n) vals false false = (m, eng) := by
  cases m with
  | mk dd ss =>
    simp only [Module.set_raw, Module.d_mk] at hq ⊢
    rw [hq]
    simp only [hanim, Bool.false_and, Bool.false_eq_true, if_false, hset,
      Bool.false_and]
    rw [updateParam_self dd.params n q hq]
    rfl

theorem set_raw_post (pp : ParentPP) (path : List String) (m : Module)
    (eng : EngineState) (n : String) (vals : List Value) (p : Parameter)
    (hp : lookupParam m.d.params n = some p) :
    ∃ q, lookupParam
        ((m.set_raw pp path eng (.str n) vals false false).1).d.params n = some q
      ∧ q.animate_running = false
      ∧ q.set vals = (q, false) := by
  cases m with
  | mk dd ss =>
    simp only [Module.d_mk] at hp
    have hpn : p.name = n := by simpa using List.find?_some hp
    simp only [Module.set_raw, Module.d_mk, hp]
    set p1 := if p.animate_running && !false then p.stop_animation else p with hp1
    have hp1n : p1.name = n := by
      rw [hp1]; split <;> simp [Parameter.stop_animation, hpn]
    have hp1t : p1.types = p.types := by
      rw [hp1]; split <;> rfl
    have hp1a : p1.animate_running = false := by
      rw [hp1]
      split
      · rfl
      · rename_i hcond
        simpa using hcond
    simp only [Bool.false_and, Bool.false_eq_true, if_false]
    by_cases hlen : vals.length = p1.types.length
    · have hval : (p1.set vals).1.value
          = (p1.types.zip vals).map fun tv => coerceVal tv.1 tv.2 := by
        simp [Parameter.set, hlen]
      have hqa : (p1.set vals).1.animate_running = false := by
        rw [Parameter.set_anim]; exact hp1a
      have hqt : (p1.set vals).1.types = p1.types := Parameter.set_types p1 vals
      split
      · refine ⟨{ (p1.set vals).1 with dirty := true },
          ?_, by simpa using hqa, ?_⟩
        · simp only [ModuleData.set_dirty]
          split <;>
            · simp only [Module.d_mk]
              exact lookupParam_updateParam_eq _ _ _
                (by simpa [Parameter.name_set] using hp1n) p hp
        · apply Parameter.set_of_fixed
          · simpa [hqt] using hlen
          · simpa [hqt] using hval.symm
      · refine ⟨(p1.set vals).1, ?_, hqa, ?_⟩
        · simp only [Module.d_mk]
          exact lookupParam_updateParam_eq _ _ _
            (by simpa [Parameter.name_set] using hp1n) p hp
        · apply Parameter.set_of_fixed
          · simpa [hqt] using hlen
          · simpa [hqt] using hval.symm
    · rw [Parameter.set_of_len_ne p1 vals hlen]
      simp only [Bool.false_and, Bool.false_eq_true, if_false]
      refine ⟨p1, ?_, hp1a, Parameter.set_of_len_ne p1 vals (by simpa [hp1t] using hlen)⟩
      simp only [Module.d_mk]
      exact lookupParam_updateParam_eq _ _ _ hp1n p hp

theorem setInSubs_not_found (pp : ParentPP) (path : List String)
    (target : String) (subs : List Module) (eng : EngineState)
    (args : List Value) (fs pa : Bool)
    (h : ∀ s ∈ subs, s.d.name ≠ target) :
    Module.setInSubs pp path target subs eng args fs pa = none := by
  induction subs with
  | nil => rw [Module.setInSubs]
  | cons s ss ih =>
      rw [Module.setInSubs]
      rw [if_neg (h s (by simp))]
      rw [ih fun x hx => h x (List.mem_cons_of_mem _ hx)]

theorem set_cons_to_raw (pp : ParentPP) (path : List String) (m : Module)
    (eng : EngineState) (h : String) (rest : List Value) (fs pa : Bool)
    (hstar : h ≠ "*")
    (halias : ∀ a ∈ m.d.aliases, a.1 ≠ h)
    (hsub : ∀ s ∈ m.subs, s.d.name ≠ h) :
    Module.set pp path m eng (.str h :: rest) fs pa
      = m.set_raw pp path eng (.str h) rest fs pa := by
  cases m with
  | mk dd ss =>
    simp only [Module.d_mk, Module.subs_mk] at halias hsub
    rw [Module.set]
    rw [if_neg hstar]
    rw [resolveAlias_not_key dd.aliases h halias]
    rw [setInSubs_not_found _ _ _ _ _ _ _ _ hsub]

theorem set_raw_none (pp : ParentPP) (path : List String) (m : Module)
    (eng : EngineState) (n : String) (rest : List Value) (fs pa : Bool)
    (hl : lookupParam m.d.params n = none) :
    m.set_raw pp path eng (.str n) rest fs pa = (m, eng) := by
  cases m with
  | mk dd ss =>
    simp only [Module.d_mk] at hl
    simp only [Module.set_raw, Module.d_mk, hl]

theorem set_raw_subs (pp : ParentPP) (path : List String) (m : Module)
    (eng : EngineState) (name : Value) (rest : List Value) (fs pa : Bool) :
    ((m.set_raw pp path eng name rest fs pa).1).subs = m.subs := by
  cases m with
  | mk dd ss =>
    cases name with
    | num q => rfl
    | list l => rfl
    | str n =>
        simp only [Module.set_raw, Module.d_mk]
        cases hl : lookupParam dd.params n with
        | none => rfl
        | some p =>
            simp only [ModuleData.set_dirty]
            split <;> split <;>
              first
                | rfl
                | (split <;> first | rfl | (split <;> rfl))

theorem set_raw_aliases (pp : ParentPP) (path : List String) (m : Module)
    (eng : EngineState) (name : Value) (rest : List Value) (fs pa : Bool) :
    ((m.set_raw pp path eng name rest fs pa).1).d.aliases = m.d.aliases := by
  cases m with
  | mk dd ss =>
    cases name with
    | num q => rfl
    | list l => rfl
    | str n =>
        simp only [Module.set_raw, Module.d_mk]
        cases hl : lookupParam dd.params n with
        | none => rfl
        | some p =>
            simp only [ModuleData.set_dirty]
            split <;> split <;>
              first
                | rfl
                | (split <;> first | rfl | (split <;> rfl))

theorem set_raw_buffer (pp : ParentPP) (path : List String) (m : Module)
    (eng : EngineState) (n : String) (vals : List Value) (pa : Bool) :
    ((m.set_raw pp path eng (.str n) vals false pa).1).d.dirtyBuffer
        = m.d.dirtyBuffer
    ∨ ((m.set_raw pp path eng (.str n) vals false pa).1).d.dirtyBuffer
        = m.d.dirtyBuffer ++ [n] := by
  cases m with
  | mk dd ss =>
    simp only [Module.set_raw, Module.d_mk]
    cases hl : lookupParam dd.params n with
    | none => exact Or.inl rfl
    | some p =>
        simp only [Bool.false_and, Bool.false_eq_true, if_false,
          ModuleData.set_dirty]
        split <;> split <;>
          first
            | exact Or.inl rfl
            | exact Or.inr rfl
            | (split <;> first | exact Or.inl rfl | exact Or.inr rfl)

/-- Claim C1: calling `Module.set` twice with an equal value within one
cycle dirties the parameter at most once — a value is enqueued (and the
module marked dirty) only when `Parameter.set` reports an actual change and
the parameter's dirty flag is not already set; the second call with the
same value is a complete no-op, so the parameter gains at most one dirty
buffer entry. -/
theorem c1_set_twice_dirties_once (pp : ParentPP) (path : List String)
    (m : Module) (eng : EngineState) (n : String) (vals : List Value)
    (hstar : n ≠ "*")
    (halias : ∀ a ∈ m.d.aliases, a.1 ≠ n)
    (hsub : ∀ s ∈ m.subs, s.d.name ≠ n) :
    Module.set pp path (Module.set pp path m eng (.str n :: vals) false false).1
        (Module.set pp path m eng (.str n :: vals) false false).2
        (.str n :: vals) false false
      = Module.set pp path m eng (.str n :: vals) false false
    ∧ (((Module.set pp path m eng (.str n :: vals) false false).1).d.dirtyBuffer
          = m.d.dirtyBuffer
        ∨ ((Module.set pp path m eng (.str n :: vals) false false).1).d.dirtyBuffer
          = m.d.dirtyBuffer ++ [n])
    ∧ (m.d.dirtyBuffer.count n = 0 →
        ((Module.set pp path m eng (.str n :: vals) false false).1).d.dirtyBuffer.count n
          ≤ 1) := by
  have hroute1 := set_cons_to_raw pp path m eng n vals false false hstar halias hsub
  have halias1 : ∀ a ∈ ((m.set_raw pp path eng (.str n) vals false false).1).d.aliases,
      a.1 ≠ n := by
    rw [set_raw_aliases]; exact halias
  have hsub1 : ∀ s ∈ ((m.set_raw pp path eng (.str n) vals false false).1).subs,
      s.d.name ≠ n := by
    rw [set_raw_subs]; exact hsub
  have hroute2 := set_cons_to_raw pp path
    (m.set_raw pp path eng (.str n) vals false false).1
    (m.set_raw pp path eng (.str n) vals false false).2
    n vals false false hstar halias1 hsub1
  refine ⟨?_, ?_, ?_⟩
  · rw [hroute1, hroute2]
    cases hl : lookupParam m.d.params n with
    | none =>
        rw [set_raw_none pp path m eng n vals false false hl,
          set_raw_none pp path m eng n vals false false hl]
    | some p =>
        obtain ⟨q, hq, hqa, hqs⟩ := set_raw_post pp path m eng n vals p hl
        rw [set_raw_noop pp path _ _ n vals q hq hqa hqs]
  · rw [hroute1]
    exact set_raw_buffer pp path m eng n vals false
  · intro h0
    rw [hroute1]
    rcases set_raw_buffer pp path m eng n vals false with hb | hb <;> rw [hb]
    · omega
    · rw [List.count_append]
      simp [h0, List.count_singleton]

/-- Claim C1 witness: two equal sets on a concrete one-parameter module;
the dirty buffer gains exactly one entry, and the second set is a no-op. -/
theorem c1_witness :
    Module.set none ["w1"] (Module.set none ["w1"] modW1 eng0
        [.str "x", .num 5] false false).1
      (Module.set none ["w1"] modW1 eng0 [.str "x", .num 5] false false).2
      [.str "x", .num 5] false false
      = Module.set none ["w1"] modW1 eng0 [.str "x", .num 5] false false := by
  have h := c1_set_twice_dirties_once none ["w1"] modW1 eng0 "x" [.num 5]
    (by decide)
    (by intro a ha; simp [modW1] at ha)
    (by intro s hs; simp [modW1] at hs)
  exact h.1

theorem set_raw_mappings (pp : ParentPP) (path : List String) (m : Module)
    (eng : EngineState) (name : Value) (rest : List Value) (fs pa : Bool) :
    ((m.set_raw pp path eng name rest fs pa).1).d.mappings = m.d.mappings := by
  cases m with
  | mk dd ss =>
    cases name with
    | num q => rfl
    | list l => rfl
    | str n =>
        simp only [Module.set_raw, Module.d_mk]
        cases hl : lookupParam dd.params n with
        | none => rfl
        | some p =>
            simp only [ModuleData.set_dirty]
            split <;> split <;>
              first
                | rfl
                | (split <;> first | rfl | (split <;> rfl))

/-- `Module.set` never touches the module's own mappings, whatever the
routing: the wildcard and delegation branches only replace submodules, and
the local branch only updates parameters, buffer and dirty flag. -/
theorem set_mappings (pp : ParentPP) (path : List String) (m : Module)
    (eng : EngineState) (args : List Value) (fs pa : Bool) :
    ((Module.set pp path m eng args fs pa).1).d.mappings = m.d.mappings := by
  cases m with
  | mk dd ss =>
    cases args with
    | nil => rw [Module.set]
    | cons name rest =>
        cases name with
        | num q =>
            rw [Module.set]
            · exact set_raw_mappings _ _ _ _ _ _ _ _
            · intro n2 hh
              cases hh
        | list l =>
            rw [Module.set]
            · exact set_raw_mappings _ _ _ _ _ _ _ _
            · intro n2 hh
              cases hh
        | str h =>
            rw [Module.set]
            split
            · rfl
            · cases hs : Module.setInSubs (some (dd.protocol, dd.port)) path
                  (resolveAlias dd.aliases h) ss eng rest fs pa with
              | some r => rfl
              | none => exact set_raw_mappings _ _ _ _ _ _ _ _

theorem destFold_mappings (pp : ParentPP) (path : List String)
    (l : List (List String × Value)) :
    ∀ (m : Module) (eng : EngineState),
    ((l.foldl
        (fun acc pv => Module.set pp path acc.1 acc.2 (destArgs pv) false false)
        (m, eng)).1).d.mappings = m.d.mappings := by
  induction l with
  | nil => intro m eng; rfl
  | cons pv rest ih =>
      intro m eng
      simp only [List.foldl_cons]
      rw [ih]
      exact set_mappings _ _ _ _ _ _ _

theorem unlockIfClean_locked (k : Nat) (r : Module × EngineState)
    (mpL : Mapping) (hg : r.1.d.mappings.get? k = some mpL)
    (hL : mpL.locked = true) :
    (((Module.unlockIfClean k r).1).d.mappings.get? k).map Mapping.locked
      = some ((Module.unlockIfClean k r).1).d.dirty := by
  have hklen : k < r.1.d.mappings.length := by
    by_contra hc
    rw [List.get?_eq_none.mpr (not_lt.mp hc)] at hg
    cases hg
  by_cases hd : r.1.d.dirty
  · simp only [Module.unlockIfClean, hd, if_true, hg, Option.map_some, hL]
    simp [hL]
  · simp only [Module.unlockIfClean, if_neg hd, hg, Module.d_mk]
    rw [List.get?_eq_getElem?, List.getElem?_set_self (by simpa using hklen)]
    simp only [Bool.not_eq_true] at hd
    simp [hd]

/-- Claim C2 (amended): when `update_mapping` acquires a mapping's lock and
distributes the transform result, the mapping ends up locked exactly when
the module that owns the mapping is dirty afterwards — the code checks
`self.dirty`, the owning module's flag, not the destination module's, so a
dirty destination submodule does not keep the mapping locked.  The
end-of-flush sweep of `update_dirty_parameters` unlocks every mapping of
the module unconditionally. -/
theorem c2_locked_iff_owner_dirty (pp : ParentPP) (path : List String)
    (m : Module) (eng : EngineState) (k : Nat) (mp : Mapping)
    (hk : m.d.mappings.get? k = some mp) (hnl : mp.locked = false) :
    (((Module.update_mapping pp path m eng k).1).d.mappings.get? k).map Mapping.locked
      = some ((Module.update_mapping pp path m eng k).1).d.dirty
    ∧ (∀ (pp2 : ParentPP) (path2 : List String) (fuel : Nat) (m2 : Module)
          (eng2 : EngineState),
        ∀ mp2 ∈ (((Module.update_dirty_parameters pp2 path2 fuel m2 eng2).1).d.mappings),
          mp2.locked = false) := by
  constructor
  · have hklen : k < m.d.mappings.length := by
      by_contra hc
      rw [List.get?_eq_none.mpr (not_lt.mp hc)] at hk
      cases hk
    simp only [Module.update_mapping, hk, hnl, Bool.false_eq_true, if_false]
    apply unlockIfClean_locked _ _ { mp with locked := true }
    · rw [destFold_mappings]
      simp only [Module.d_mk]
      rw [List.get?_eq_getElem?, List.getElem?_set_self (by simpa using hklen)]
    · rfl
  · intro pp2 path2 fuel m2 eng2 mp2 hmem
    simp only [Module.update_dirty_parameters, Module.d_mk, List.mem_map] at hmem
    obtain ⟨mp3, _, rfl⟩ := hmem
    rfl

/-- Claim C2 witness: the locked-iff-owner-dirty characterization applied
to the concrete mapping module. -/
theorem c2_witness :
    (((Module.update_mapping (some (none, none)) ["m"] modC2 eng0 0).1).d.mappings.get? 0).map
        Mapping.locked
      = some ((Module.update_mapping (some (none, none)) ["m"] modC2 eng0 0).1).d.dirty :=
  (c2_locked_iff_owner_dirty (some (none, none)) ["m"] modC2 eng0 0 mapC2 rfl
    rfl).1

/-- Claim C2 counterexample: a mapping whose only destination `('s', 'y')`
lives on a submodule.  Distributing x = 1 onto it leaves the destination
submodule dirty, yet the mapping is unlocked immediately (the code checks
the owning module's dirty flag, which stays clear), contradicting the
claim that a dirty destination submodule keeps the mapping locked. -/
theorem c2_counterexample :
    mapC2.dest = [["s", "y"]]
    ∧ subC2.d.name = "s"
    ∧ (((Module.update_mapping (some (none, none)) ["m"] modC2 eng0 0).1).subs.map
        fun s => s.d.dirty) = [true]
    ∧ (((Module.update_mapping (some (none, none)) ["m"] modC2 eng0 0).1).d.mappings.map
        fun mp => mp.locked) = [false] := by
  refine ⟨rfl, rfl, ?_, ?_⟩ <;>
    simp [Module.update_mapping, Module.unlockIfClean, destArgs, modC2, mapC2,
      subC2, pC2x, pC2y, eng0, Module.get, Module.getInSubs, Module.set,
      Module.setInSubs, Module.setFanAll, Module.set_raw, lookupParam,
      updateParam, resolveAlias, Parameter.set, Parameter.get,
      Parameter.stop_animation, ModuleData.set_dirty, pushDirtyModule,
      coerceVal, Mapping.n_args]

theorem coerceVal_of_fits (t : TypeTag) (v : Value) (h : tagFits t v = true) :
    coerceVal t v = v := by
  cases t <;> cases v <;> simp_all [tagFits, coerceVal]

theorem coerce_map_self (types : List TypeTag) (vals : List Value)
    (hfits : ((types.zip vals).all fun tv => tagFits tv.1 tv.2) = true)
    (hlen : vals.length = types.length) :
    ((types.zip vals).map fun tv => coerceVal tv.1 tv.2) = vals := by
  induction types generalizing vals with
  | nil =>
      cases vals with
      | nil => rfl
      | cons v vs => cases hlen
  | cons t ts ih =>
      cases vals with
      | nil => cases hlen
      | cons v vs =>
          simp only [List.zip_cons_cons, List.all_cons, Bool.and_eq_true] at hfits
          simp only [List.zip_cons_cons, List.map_cons]
          rw [coerceVal_of_fits t v hfits.1]
          rw [ih vs hfits.2 (by simpa using hlen)]

theorem param_set_self (p : Parameter) (h : p.WFb = true) :
    p.set p.value = (p, false) := by
  simp only [Parameter.WFb, Bool.and_eq_true, decide_eq_true_eq] at h
  apply Parameter.set_of_fixed p p.value h.1
  exact coerce_map_self p.types p.value h.2 h.1

theorem stateEntry_eq (p : Parameter) (hWF : p.WFb = true)
    (hscal : (p.value.all fun v => !v.isList) = true) :
    stateEntry p = Value.str p.name :: p.value := by
  simp only [Parameter.WFb, Bool.and_eq_true, decide_eq_true_eq] at hWF
  rw [stateEntry, Parameter.get]
  by_cases h1 : p.types.length = 1
  · rw [if_pos h1]
    have hv1 : p.value.length = 1 := by rw [hWF.1, h1]
    cases hval : p.value with
    | nil => rw [hval] at hv1; cases hv1
    | cons v vs =>
        cases vs with
        | nil =>
            rw [hval] at hscal
            simp only [List.all_cons, List.all_nil, Bool.and_true] at hscal
            simp only [hval, List.headD_cons]
            cases v with
            | num q => rfl
            | str sv => rfl
            | list l => simp [Value.isList] at hscal
        | cons v2 vs2 => rw [hval] at hv1; cases hv1
  · rw [if_neg h1]

theorem WFbList_mem (ss : List Module) (h : Module.WFbList ss = true)
    (s : Module) (hs : s ∈ ss) : s.WFb = true := by
  induction ss with
  | nil => cases hs
  | cons t rest ih =>
      rw [Module.WFbList, Bool.and_eq_true] at h
      rcases List.mem_cons.mp hs with rfl | hs2
      · exact h.1
      · exact ih h.2 hs2

theorem noAnimbList_mem (ss : List Module) (h : Module.noAnimbList ss = true)
    (s : Module) (hs : s ∈ ss) : s.noAnimb = true := by
  induction ss with
  | nil => cases hs
  | cons t rest ih =>
      rw [Module.noAnimbList, Bool.and_eq_true] at h
      rcases List.mem_cons.mp hs with rfl | hs2
      · exact h.1
      · exact ih h.2 hs2

theorem lookup_of_mem_nodup (ps : List Parameter) (p : Parameter)
    (hp : p ∈ ps) (hnd : (ps.map Parameter.name).Nodup) :
    lookupParam ps p.name = some p := by
  induction ps with
  | nil => cases hp
  | cons q rest ih =>
      simp only [List.map_cons, List.nodup_cons] at hnd
      rcases List.mem_cons.mp hp with rfl | hp2
      · simp only [lookupParam]
        rw [List.find?_cons_of_pos _ (by simp)]
      · have hqn : q.name ≠ p.name := by
          intro he
          exact hnd.1 (he ▸ List.mem_map_of_mem Parameter.name hp2)
        simp only [lookupParam]
        rw [List.find?_cons_of_neg _ (by simp [hqn])]
        exact ih hp2 hnd.2

theorem getStateSubs_mem (ss : List Module) (om : Bool) (e : List Value)
    (he : e ∈ Module.getStateSubs ss om) :
    ∃ s ∈ ss, ∃ e2 ∈ s.get_state om, e = Value.str s.d.name :: e2 := by
  induction ss with
  | nil => rw [Module.getStateSubs] at he; cases he
  | cons s rest ih =>
      rw [Module.getStateSubs] at he
      rcases List.mem_append.mp he with h1 | h2
      · obtain ⟨e2, he2, rfl⟩ := List.mem_map.mp h1
        exact ⟨s, by simp, e2, he2, rfl⟩
      · obtain ⟨t, ht, e2, he2, rfl⟩ := ih h2
        exact ⟨t, List.mem_cons_of_mem _ ht, e2, he2, rfl⟩

theorem get_state_mem (dd : ModuleData) (ss : List Module) (e : List Value)
    (he : e ∈ (Module.mk dd ss).get_state false) :
    (∃ p ∈ dd.params, e = stateEntry p)
    ∨ ∃ s ∈ ss, ∃ e2 ∈ s.get_state false, e = Value.str s.d.name :: e2 := by
  rw [Module.get_state] at he
  rcases List.mem_append.mp he with h1 | h2
  · left
    obtain ⟨p, hp, hpe⟩ := List.mem_filterMap.mp h1
    simp only [Bool.false_and, Bool.false_eq_true, if_false,
      Option.some.injEq] at hpe
    exact ⟨p, hp, hpe.symm⟩
  · right
    exact getStateSubs_mem ss false e h2

theorem not_mem_of_contains_false {l : List String} {x : String}
    (h : l.contains x = false) : x ∉ l := by
  intro hx
  rw [List.contains_eq_any_beq, List.any_eq_false] at h
  exact h x hx (by simp)

theorem WFb_destruct (dd : ModuleData) (ss : List Module)
    (h : (Module.mk dd ss).WFb = true) :
    (∀ p ∈ dd.params, p.WFb = true ∧ (p.value.all fun v => !v.isList) = true)
    ∧ (dd.params.map Parameter.name).Nodup
    ∧ (ss.map fun s => s.d.name).Nodup
    ∧ (∀ p ∈ dd.params, (∀ s ∈ ss, s.d.name ≠ p.name)
        ∧ (∀ a ∈ dd.aliases, a.1 ≠ p.name) ∧ p.name ≠ "*")
    ∧ (∀ s ∈ ss, (∀ a ∈ dd.aliases, a.1 ≠ s.d.name) ∧ s.d.name ≠ "*")
    ∧ Module.WFbList ss = true := by
  rw [Module.WFb] at h
  rw [Bool.and_eq_true, Bool.and_eq_true, Bool.and_eq_true, Bool.and_eq_true,
    Bool.and_eq_true] at h
  obtain ⟨⟨⟨⟨⟨h1, h2⟩, h3⟩, h4⟩, h5⟩, h6⟩ := h
  refine ⟨?_, of_decide_eq_true h2, of_decide_eq_true h3, ?_, ?_, h6⟩
  · intro p hp
    have hx := List.all_eq_true.mp h1 p hp
    rw [Bool.and_eq_true] at hx
    exact hx
  · intro p hp
    have hx := List.all_eq_true.mp h4 p hp
    rw [Bool.and_eq_true, Bool.and_eq_true] at hx
    obtain ⟨⟨ha, hb⟩, hc⟩ := hx
    rw [Bool.not_eq_true'] at ha hb hc
    refine ⟨?_, ?_, by simpa using hc⟩
    · intro s hs he
      exact not_mem_of_contains_false ha (he ▸ List.mem_map_of_mem _ hs)
    · intro a ha2 he
      exact not_mem_of_contains_false hb (he ▸ List.mem_map_of_mem _ ha2)
  · intro s hs
    have hx := List.all_eq_true.mp h5 s.d.name (List.mem_map_of_mem _ hs)
    rw [Bool.and_eq_true] at hx
    obtain ⟨ha, hb⟩ := hx
    rw [Bool.not_eq_true'] at ha hb
    refine ⟨?_, by simpa using hb⟩
    · intro a ha2 he
      exact not_mem_of_contains_false ha (he ▸ List.mem_map_of_mem _ ha2)

theorem noAnimb_destruct (dd : ModuleData) (ss : List Module)
    (h : (Module.mk dd ss).noAnimb = true) :
    (∀ p ∈ dd.params, p.animate_running = false)
    ∧ Module.noAnimbList ss = true := by
  rw [Module.noAnimb] at h
  simp only [Bool.and_eq_true, List.all_eq_true, Bool.not_eq_true'] at h
  exact h

theorem setInSubs_id (pp : ParentPP) (path : List String) (target : String)
    (ss : List Module) (eng : EngineState) (args : List Value) (fs pa : Bool)
    (hnd : (ss.map fun s => s.d.name).Nodup)
    (s : Module) (hs : s ∈ ss) (hname : s.d.name = target)
    (hset : ∀ (pp2 : ParentPP) (path2 : List String) (eng2 : EngineState),
      Module.set pp2 path2 s eng2 args fs pa = (s, eng2)) :
    Module.setInSubs pp path target ss eng args fs pa = some (ss, eng) := by
  induction ss with
  | nil => cases hs
  | cons t rest ih =>
      simp only [List.map_cons, List.nodup_cons] at hnd
      rcases List.mem_cons.mp hs with rfl | hs2
      · rw [Module.setInSubs, if_pos hname,
          hset pp (path ++ [target]) eng]
      · by_cases ht : t.d.name = target
        · exfalso
          apply hnd.1
          rw [ht, ← hname]
          exact List.mem_map_of_mem _ hs2
        · rw [Module.setInSubs, if_neg ht, ih hnd.2 hs2]

theorem sizeOf_mk (dd : ModuleData) (ss : List Module) :
    sizeOf (Module.mk dd ss) = 1 + sizeOf dd + sizeOf ss := by
  simp

theorem set_entry_id_aux :
    ∀ (k : Nat) (m : Module), sizeOf m ≤ k → m.WFb = true → m.noAnimb = true →
    ∀ e ∈ m.get_state false,
    ∀ (pp : ParentPP) (path : List String) (eng : EngineState),
      Module.set pp path m eng e false false = (m, eng) := by
  intro k
  induction k with
  | zero =>
      intro m hk
      exfalso
      cases m with
      | mk dd ss =>
          rw [sizeOf_mk] at hk
          omega
  | succ k ih =>
      intro m hk hWF hNA e he pp path eng
      cases m with
      | mk dd ss =>
        obtain ⟨hparams, hndP, hndS, hdisj, hsubs, hWFss⟩ := WFb_destruct dd ss hWF
        obtain ⟨hanim, hNAss⟩ := noAnimb_destruct dd ss hNA
        rcases get_state_mem dd ss e he with ⟨p, hp, rfl⟩ | ⟨s, hs, e2, he2, rfl⟩
        · obtain ⟨hWFp, hscal⟩ := hparams p hp
          rw [stateEntry_eq p hWFp hscal]
          rw [set_cons_to_raw pp path (Module.mk dd ss) eng p.name p.value false false
            (hdisj p hp).2.2
            (by simpa using (hdisj p hp).2.1)
            (by simpa using (hdisj p hp).1)]
          apply set_raw_noop pp path _ eng p.name p.value p
          · simpa using lookup_of_mem_nodup dd.params p hp hndP
          · exact hanim p hp
          · exact param_set_self p hWFp
        · have hsize : sizeOf s ≤ k := by
            have h1 := List.sizeOf_lt_of_mem hs
            rw [sizeOf_mk] at hk
            omega
          rw [Module.set]
          rw [if_neg (hsubs s hs).2]
          rw [resolveAlias_not_key dd.aliases s.d.name (hsubs s hs).1]
          rw [setInSubs_id _ _ _ ss eng e2 false false hndS s hs rfl
            (fun pp2 path2 eng2 =>
              ih s hsize (WFbList_mem ss hWFss s hs)
                (noAnimbList_mem ss hNAss s hs) e2 he2 pp2 path2 eng2)]

theorem set_entry_id (m : Module) (hWF : m.WFb = true) (hNA : m.noAnimb = true)
    (e : List Value) (he : e ∈ m.get_state false) :
    ∀ (pp : ParentPP) (path : List String) (eng : EngineState),
      Module.set pp path m eng e false false = (m, eng) :=
  set_entry_id_aux (sizeOf m) m (le_refl _) hWF hNA e he

theorem set_state_entries_id (pp : ParentPP) (path : List String) (m : Module)
    (l : List (List Value))
    (hid : ∀ e ∈ l, ∀ (pp2 : ParentPP) (path2 : List String) (eng2 : EngineState),
      Module.set pp2 path2 m eng2 e false false = (m, eng2)) :
    ∀ eng, Module.set_state pp path m eng (l.map StateItem.entry) false = (m, eng) := by
  induction l with
  | nil => intro eng; rfl
  | cons e rest ih =>
      intro eng
      simp only [List.map_cons, Module.set_state, List.foldl_cons]
      rw [hid e (by simp) pp path eng]
      exact ih (fun e2 he2 => hid e2 (List.mem_cons_of_mem _ he2)) eng

theorem paramCoreEq_refl (p : Parameter) : paramCoreEq p p = true := by
  simp [paramCoreEq]

theorem paramCoreEq_trans {a b c : Parameter} (h1 : paramCoreEq a b = true)
    (h2 : paramCoreEq b c = true) : paramCoreEq a c = true := by
  simp only [paramCoreEq, Bool.and_eq_true, decide_eq_true_eq] at h1 h2 ⊢
  obtain ⟨⟨⟨⟨⟨n1, a1⟩, t1⟩, s1⟩, d1⟩, v1⟩ := h1
  obtain ⟨⟨⟨⟨⟨n2, a2⟩, t2⟩, s2⟩, d2⟩, v2⟩ := h2
  exact ⟨⟨⟨⟨⟨n1.trans n2, a1.trans a2⟩, t1.trans t2⟩, s1.trans s2⟩,
    d1.trans d2⟩, v1.trans v2⟩

theorem paramCoreEq_name {a b : Parameter} (h : paramCoreEq a b = true) :
    a.name = b.name := by
  simp only [paramCoreEq, Bool.and_eq_true, decide_eq_true_eq] at h
  exact h.1.1.1.1.1

theorem paramCoreEq_tv {a b : Parameter} (h : paramCoreEq a b = true) :
    a.types = b.types ∧ a.value = b.value := by
  simp only [paramCoreEq, Bool.and_eq_true, decide_eq_true_eq] at h
  exact ⟨h.1.1.1.2, h.2⟩

theorem paramsCoreEq_refl (ps : List Parameter) : paramsCoreEq ps ps = true := by
  induction ps with
  | nil => rfl
  | cons p rest ih => simp [paramsCoreEq, paramCoreEq_refl, ih]

theorem paramsCoreEq_trans {ps qs rs : List Parameter}
    (h1 : paramsCoreEq ps qs = true) (h2 : paramsCoreEq qs rs = true) :
    paramsCoreEq ps rs = true := by
  induction ps generalizing qs rs with
  | nil =>
      cases qs with
      | nil => cases rs <;> simp_all [paramsCoreEq]
      | cons q qt => simp [paramsCoreEq] at h1
  | cons p pt ih =>
      cases qs with
      | nil => simp [paramsCoreEq] at h1
      | cons q qt =>
          cases rs with
          | nil => simp [paramsCoreEq] at h2
          | cons r rt =>
              simp only [paramsCoreEq, Bool.and_eq_true] at h1 h2 ⊢
              exact ⟨paramCoreEq_trans h1.1 h2.1, ih h1.2 h2.2⟩

theorem lookup_coreEq_exists (ps qs : List Parameter) (n : String)
    (h : paramsCoreEq ps qs = true) :
    ∀ p, lookupParam qs n = some p →
    ∃ q, lookupParam ps n = some q ∧ paramCoreEq q p = true := by
  induction ps generalizing qs with
  | nil =>
      cases qs with
      | nil => intro p hp; cases hp
      | cons q qt => simp [paramsCoreEq] at h
  | cons c ct ih =>
      cases qs with
      | nil => simp [paramsCoreEq] at h
      | cons q qt =>
          simp only [paramsCoreEq, Bool.and_eq_true] at h
          intro p hp
          have hname := paramCoreEq_name h.1
          by_cases hqn : q.name = n
          · simp only [lookupParam] at hp
            rw [List.find?_cons_of_pos _ (by simp [hqn])] at hp
            cases hp
            refine ⟨c, ?_, h.1⟩
            simp only [lookupParam]
            rw [List.find?_cons_of_pos _ (by simp [hname, hqn])]
          · simp only [lookupParam] at hp
            rw [List.find?_cons_of_neg _ (by simp [hqn])] at hp
            obtain ⟨q2, hq2, hcore⟩ := ih qt h.2 p hp
            refine ⟨q2, ?_, hcore⟩
            simp only [lookupParam] at hq2 ⊢
            rw [List.find?_cons_of_neg _ (by simp [hname, hqn])]
            exact hq2

theorem paramsCoreEq_updateParam (ps qs : List Parameter) (n : String)
    (q' : Parameter) (h : paramsCoreEq ps qs = true)
    (hcore : ∀ p, lookupParam ps n = some p → paramCoreEq q' p = true) :
    paramsCoreEq (updateParam ps n q') qs = true := by
  induction ps generalizing qs with
  | nil => cases qs <;> simp_all [paramsCoreEq, updateParam]
  | cons p pt ih =>
      cases qs with
      | nil => simp [paramsCoreEq] at h
      | cons q qt =>
          simp only [paramsCoreEq, Bool.and_eq_true] at h
          by_cases hpn : p.name = n
          · simp only [updateParam, if_pos hpn, paramsCoreEq, Bool.and_eq_true]
            have hq' : paramCoreEq q' p = true := by
              apply hcore
              simp only [lookupParam]
              rw [List.find?_cons_of_pos _ (by simp [hpn])]
            exact ⟨paramCoreEq_trans hq' h.1, h.2⟩
          · simp only [updateParam, if_neg hpn, paramsCoreEq, Bool.and_eq_true]
            refine ⟨h.1, ih qt h.2 ?_⟩
            intro p2 hp2
            apply hcore
            simp only [lookupParam]
            rw [List.find?_cons_of_neg _ (by simp [hpn])]
            exact hp2

theorem coreEqbList_of_forall (ss : List Module)
    (h : ∀ s ∈ ss, Module.coreEqb s s = true) :
    Module.coreEqbList ss ss = true := by
  induction ss with
  | nil => rfl
  | cons s rest ih =>
      rw [Module.coreEqbList, Bool.and_eq_true]
      exact ⟨h s (by simp), ih fun t ht => h t (List.mem_cons_of_mem _ ht)⟩

theorem coreEqb_refl_aux : ∀ (k : Nat) (m : Module), sizeOf m ≤ k →
    Module.coreEqb m m = true := by
  intro k
  induction k with
  | zero =>
      intro m hk
      exfalso
      cases m with
      | mk dd ss => rw [sizeOf_mk] at hk; omega
  | succ k ih =>
      intro m hk
      cases m with
      | mk dd ss =>
          have hlist : Module.coreEqbList ss ss = true := by
            apply coreEqbList_of_forall
            intro s hs
            apply ih
            have h1 := List.sizeOf_lt_of_mem hs
            rw [sizeOf_mk] at hk
            omega
          rw [Module.coreEqb]
          simp [hlist, paramsCoreEq_refl]

theorem coreEqb_refl (m : Module) : Module.coreEqb m m = true :=
  coreEqb_refl_aux (sizeOf m) m (le_refl _)

theorem coreEqb_destruct (ddc : ModuleData) (ssc : List Module)
    (ddm : ModuleData) (ssm : List Module)
    (h : Module.coreEqb (Module.mk ddc ssc) (Module.mk ddm ssm) = true) :
    ddc.name = ddm.name ∧ ddc.aliases = ddm.aliases
    ∧ paramsCoreEq ddc.params ddm.params = true
    ∧ Module.coreEqbList ssc ssm = true := by
  rw [Module.coreEqb] at h
  simp only [Bool.and_eq_true, decide_eq_true_eq] at h
  exact ⟨h.1.1.1, h.1.1.2, h.1.2, h.2⟩

theorem coreEqb_name {a b : Module} (h : Module.coreEqb a b = true) :
    a.d.name = b.d.name := by
  cases a with
  | mk dda ssa =>
    cases b with
    | mk ddb ssb => exact (coreEqb_destruct _ _ _ _ h).1

theorem sls_core (p : Parameter) : paramCoreEq p.set_last_sent p = true := by
  simp [paramCoreEq, Parameter.set_last_sent]

theorem stop_core (p : Parameter) : paramCoreEq p.stop_animation p = true := by
  simp [paramCoreEq, Parameter.stop_animation]

theorem set_stop_of_nochange (q : Parameter) (vals : List Value)
    (h : q.set vals = (q, false)) :
    q.stop_animation.set vals = (q.stop_animation, false) := by
  by_cases hlen : vals.length = q.types.length
  · have hval : ((q.types.zip vals).map fun tv => coerceVal tv.1 tv.2)
        = q.value := by
      have h2 := congrArg (fun r => r.1.value) h
      simp only [Parameter.set, if_pos hlen] at h2
      simpa using h2
    apply Parameter.set_of_fixed
    · simpa [Parameter.stop_animation] using hlen
    · simpa [Parameter.stop_animation] using hval
  · apply Parameter.set_of_len_ne
    simpa [Parameter.stop_animation] using hlen

theorem coreEqbList_names : ∀ (ssc ssm : List Module),
    Module.coreEqbList ssc ssm = true →
    ssc.map (fun s => s.d.name) = ssm.map (fun s => s.d.name) := by
  intro ssc
  induction ssc with
  | nil =>
      intro ssm h
      cases ssm with
      | nil => rfl
      | cons t tt => simp [Module.coreEqbList] at h
  | cons c cc ih =>
      intro ssm h
      cases ssm with
      | nil => simp [Module.coreEqbList] at h
      | cons t tt =>
          rw [Module.coreEqbList, Bool.and_eq_true] at h
          simp only [List.map_cons]
          rw [coreEqb_name h.1, ih tt h.2]

theorem set_raw_name (pp : ParentPP) (path : List String) (m : Module)
    (eng : EngineState) (name : Value) (rest : List Value) (fs pa : Bool) :
    ((m.set_raw pp path eng name rest fs pa).1).d.name = m.d.name := by
  cases m with
  | mk dd ss =>
    cases name with
    | num q => rfl
    | list l => rfl
    | str n =>
        simp only [Module.set_raw, Module.d_mk]
        cases hl : lookupParam dd.params n with
        | none => rfl
        | some p =>
            simp only [ModuleData.set_dirty]
            split <;> split <;>
              first
                | rfl
                | (split <;> first | rfl | (split <;> rfl))

/-- A local write whose `Parameter.set` reports no change preserves the
parameter list's observable core regardless of `force_send`: the only
mutations are the animation stop, the last-sent snapshot and the dirty
bookkeeping, none of which are core fields. -/
theorem set_raw_coreEq (pp : ParentPP) (path : List String) (ddc : ModuleData)
    (ssc : List Module) (eng : EngineState) (n : String) (vals : List Value)
    (fs : Bool) (q : Parameter)
    (hq : lookupParam ddc.params n = some q)
    (hset : q.set vals = (q, false)) :
    paramsCoreEq
      ((((Module.mk ddc ssc).set_raw pp path eng (.str n) vals fs false).1).d.params)
      ddc.params = true := by
  have hupd : ∀ (p2 : Parameter), paramCoreEq p2 q = true →
      paramsCoreEq (updateParam ddc.params n p2) ddc.params = true := by
    intro p2 hc
    apply paramsCoreEq_updateParam _ _ _ _ (paramsCoreEq_refl _)
    intro p hp
    rw [hq] at hp
    cases hp
    exact hc
  simp only [Module.set_raw, Module.d_mk, Module.subs_mk, hq, Bool.not_false,
    Bool.and_true]
  by_cases han : q.animate_running = true
  · rw [if_pos han]
    have hsetS := set_stop_of_nochange q vals hset
    rw [hsetS]
    simp only [Bool.false_and, Bool.false_eq_true, if_false]
    split
    · exact hupd _ (paramCoreEq_trans (sls_core _) (stop_core q))
    · exact hupd _ (stop_core q)
  · rw [if_neg han]
    rw [hset]
    simp only [Bool.false_and, Bool.false_eq_true, if_false]
    split
    · exact hupd _ (paramCoreEq_trans (sls_core _) (paramCoreEq_refl q))
    · exact hupd _ (paramCoreEq_refl q)

theorem coreEqb_intro (a : Module) (dd : ModuleData) (ss : List Module)
    (h1 : a.d.name = dd.name) (h2 : a.d.aliases = dd.aliases)
    (h3 : paramsCoreEq a.d.params dd.params = true)
    (h4 : Module.coreEqbList a.subs ss = true) :
    Module.coreEqb a (Module.mk dd ss) = true := by
  cases a with
  | mk dda ssa =>
      simp only [Module.d_mk, Module.subs_mk] at h1 h2 h3 h4
      rw [Module.coreEqb]
      simp [h1, h2, h3, h4]

/-- Delegation preserves the observable core: when the target name matches a
submodule (unique by well-formedness) and recursive sets on core-equal
copies of that submodule preserve its core, `setInSubs` succeeds and the
resulting submodule list stays core-equal. -/
theorem setInSubs_coreEq (pp : ParentPP) (path : List String)
    (args : List Value) (fs : Bool) (target : String) :
    ∀ (ssm ssc : List Module), Module.coreEqbList ssc ssm = true →
    (ssm.map fun t => t.d.name).Nodup →
    ∀ s ∈ ssm, s.d.name = target →
    (∀ (c : Module), Module.coreEqb c s = true →
      ∀ (pp2 : ParentPP) (path2 : List String) (eng2 : EngineState),
        Module.coreEqb ((Module.set pp2 path2 c eng2 args fs false).1) s = true) →
    ∀ (eng : EngineState),
    ∃ r, Module.setInSubs pp path target ssc eng args fs false = some r
      ∧ Module.coreEqbList r.1 ssm = true := by
  intro ssm
  induction ssm with
  | nil => intro ssc hrel hnd s hs; cases hs
  | cons t tt ih =>
      intro ssc hrel hnd s hs hname hrec eng
      cases ssc with
      | nil => simp [Module.coreEqbList] at hrel
      | cons c cc =>
          rw [Module.coreEqbList, Bool.and_eq_true] at hrel
          obtain ⟨hct, hcctt⟩ := hrel
          simp only [List.map_cons, List.nodup_cons] at hnd
          rcases List.mem_cons.mp hs with rfl | hs2
          · have hcn : c.d.name = target := (coreEqb_name hct).trans hname
            rw [Module.setInSubs, if_pos hcn]
            refine ⟨_, rfl, ?_⟩
            show Module.coreEqbList
              ((Module.set pp (path ++ [target]) c eng args fs false).1 :: cc)
              (s :: tt) = true
            rw [Module.coreEqbList, Bool.and_eq_true]
            exact ⟨hrec c hct pp (path ++ [target]) eng, hcctt⟩
          · have htn : t.d.name ≠ target := by
              intro he
              apply hnd.1
              rw [he, ← hname]
              exact List.mem_map.mpr ⟨s, hs2, rfl⟩
            have hcn : c.d.name ≠ target := by
              rw [coreEqb_name hct]; exact htn
            rw [Module.setInSubs, if_neg hcn]
            obtain ⟨r0, hr, hrcore⟩ := ih cc hcctt hnd.2 s hs2 hname hrec eng
            rw [hr]
            refine ⟨_, rfl, ?_⟩
            show Module.coreEqbList (c :: r0.1) (t :: tt) = true
            rw [Module.coreEqbList, Bool.and_eq_true]
            exact ⟨hct, hrcore⟩

/-- Applying one `get_state` entry of a well-formed module tree `m` through
`Module.set` on any core-equal copy yields a module still core-equal to
`m`, for any `force_send`: the entry's values equal the current ones, so no
core field moves (only flush/animation bookkeeping may change). -/
theorem set_entry_coreEq_aux :
    ∀ (k : Nat) (m : Module), sizeOf m ≤ k → m.WFb = true →
    ∀ e ∈ m.get_state false,
    ∀ (m_c : Module), Module.coreEqb m_c m = true →
    ∀ (pp : ParentPP) (path : List String) (eng : EngineState) (fs : Bool),
      Module.coreEqb ((Module.set pp path m_c eng e fs false).1) m = true := by
  intro k
  induction k with
  | zero =>
      intro m hk
      exfalso
      cases m with
      | mk dd ss =>
          rw [sizeOf_mk] at hk
          omega
  | succ k ih =>
      intro m hk hWF e he m_c hcore pp path eng fs
      cases m with
      | mk dd ss =>
        cases m_c with
        | mk ddc ssc =>
          obtain ⟨hnameEq, haliasEq, hparamsCore, hlistCore⟩ :=
            coreEqb_destruct ddc ssc dd ss hcore
          obtain ⟨hparams, hndP, hndS, hdisj, hsubs, hWFss⟩ := WFb_destruct dd ss hWF
          rcases get_state_mem dd ss e he with ⟨p, hp, rfl⟩ | ⟨s, hs, e2, he2, rfl⟩
          · obtain ⟨hWFp, hscal⟩ := hparams p hp
            rw [stateEntry_eq p hWFp hscal]
            have hsubc : ∀ sc ∈ ssc, sc.d.name ≠ p.name := by
              intro sc hsc he2
              have hmem : p.name ∈ ss.map (fun s => s.d.name) := by
                rw [← coreEqbList_names ssc ss hlistCore]
                exact List.mem_map.mpr ⟨sc, hsc, he2⟩
              obtain ⟨s2, hs2, hs2n⟩ := List.mem_map.mp hmem
              exact (hdisj p hp).1 s2 hs2 hs2n
            rw [set_cons_to_raw pp path (Module.mk ddc ssc) eng p.name p.value fs false
              (hdisj p hp).2.2
              (by simp only [Module.d_mk]; rw [haliasEq]; exact (hdisj p hp).2.1)
              (by simpa using hsubc)]
            have hlookm : lookupParam dd.params p.name = some p :=
              lookup_of_mem_nodup dd.params p hp hndP
            obtain ⟨q, hqc, hqcore⟩ :=
              lookup_coreEq_exists ddc.params dd.params p.name hparamsCore p hlookm
            have hWFp2 := hWFp
            simp only [Parameter.WFb, Bool.and_eq_true, decide_eq_true_eq] at hWFp2
            have hqset : q.set p.value = (q, false) := by
              obtain ⟨ht, hv⟩ := paramCoreEq_tv hqcore
              apply Parameter.set_of_fixed
              · rw [ht]; exact hWFp2.1
              · rw [ht, hv]
                exact coerce_map_self p.types p.value hWFp2.2 hWFp2.1
            apply coreEqb_intro
            · rw [set_raw_name]
              simp only [Module.d_mk]
              exact hnameEq
            · rw [set_raw_aliases]
              simp only [Module.d_mk]
              exact haliasEq
            · exact paramsCoreEq_trans
                (set_raw_coreEq pp path ddc ssc eng p.name p.value fs q hqc hqset)
                hparamsCore
            · rw [set_raw_subs]
              simp only [Module.subs_mk]
              exact hlistCore
          · have hsize : sizeOf s ≤ k := by
              have h1 := List.sizeOf_lt_of_mem hs
              rw [sizeOf_mk] at hk
              omega
            rw [Module.set]
            rw [if_neg (hsubs s hs).2]
            rw [show resolveAlias ddc.aliases s.d.name = s.d.name from by
              rw [haliasEq]
              exact resolveAlias_not_key dd.aliases s.d.name (hsubs s hs).1]
            obtain ⟨r0, hr, hrcore⟩ :=
              setInSubs_coreEq (some (ddc.protocol, ddc.port)) path e2 fs s.d.name
                ss ssc hlistCore hndS s hs rfl
                (fun c hsc pp2 path2 eng2 =>
                  ih s hsize (WFbList_mem ss hWFss s hs) e2 he2 c hsc
                    pp2 path2 eng2 fs)
                eng
            rw [hr]
            show Module.coreEqb (Module.mk ddc r0.1) (Module.mk dd ss) = true
            apply coreEqb_intro
            · simp only [Module.d_mk]; exact hnameEq
            · simp only [Module.d_mk]; exact haliasEq
            · simp only [Module.d_mk]; exact hparamsCore
            · simp only [Module.subs_mk]; exact hrcore

theorem set_entry_coreEq (m : Module) (hWF : m.WFb = true)
    (e : List Value) (he : e ∈ m.get_state false)
    (m_c : Module) (hc : Module.coreEqb m_c m = true)
    (pp : ParentPP) (path : List String) (eng : EngineState) (fs : Bool) :
    Module.coreEqb ((Module.set pp path m_c eng e fs false).1) m = true :=
  set_entry_coreEq_aux (sizeOf m) m (le_refl _) hWF e he m_c hc pp path eng fs

theorem set_state_entries_coreEq (m : Module) (hWF : m.WFb = true)
    (pp : ParentPP) (path : List String) (fs : Bool) :
    ∀ (l : List (List Value)), (∀ e ∈ l, e ∈ m.get_state false) →
    ∀ (mc : Module), Module.coreEqb mc m = true →
    ∀ (eng : EngineState),
      Module.coreEqb
        ((Module.set_state pp path mc eng (l.map StateItem.entry) fs).1) m
        = true := by
  intro l
  induction l with
  | nil => intro h mc hc eng; exact hc
  | cons e rest ih =>
      intro h mc hc eng
      simp only [List.map_cons, Module.set_state, List.foldl_cons]
      have hstep := set_entry_coreEq m hWF e (h e (by simp)) mc hc pp path eng fs
      have htail := ih (fun e2 he2 => h e2 (List.mem_cons_of_mem _ he2))
        (Module.set pp path mc eng e fs false).1 hstep
        (Module.set pp path mc eng e fs false).2
      simpa [Module.set_state] using htail

/-- Claim C6 (amended): feeding `get_state()` back into `set_state()` on a
well-formed module reproduces the observable core of the module tree —
every parameter of the module and of every submodule keeps its name,
address, types, static arguments, default and current values — for any
`force_send`; and when no animation is running and `force_send` is false
the round trip is exactly the identity on the module and the engine state.
The original claim's "no side effects beyond retransmission" does not hold
in general: the round trip goes through the normal `set` path, which stops
a running animation (see the counterexample). -/
theorem c6_roundtrip (pp : ParentPP) (path : List String) (m : Module)
    (eng : EngineState) (fs : Bool) (hWF : m.WFb = true) :
    Module.coreEqb
        ((Module.set_state pp path m eng (m.stateItems false) fs).1) m = true
    ∧ (m.noAnimb = true → fs = false →
        Module.set_state pp path m eng (m.stateItems false) fs = (m, eng)) := by
  constructor
  · rw [Module.stateItems]
    exact set_state_entries_coreEq m hWF pp path fs (m.get_state false)
      (fun e he => he) m (coreEqb_refl m) eng
  · intro hNA hfs
    subst hfs
    rw [Module.stateItems]
    exact set_state_entries_id pp path m (m.get_state false)
      (fun e he pp2 path2 eng2 => set_entry_id m hWF hNA e he pp2 path2 eng2) eng

/-- Claim C6 counterexample: on a module whose parameter `x` has a running
animation, the `get_state`/`set_state` round trip (with `force_send` false)
keeps `x`'s value but stops the animation — a side effect beyond
retransmission — so the resulting module differs from the original. -/
theorem c6_counterexample :
    paramAnimOf modC6 "x" = some true
    ∧ paramValueOf ((Module.set_state none ["m"] modC6 eng0
        (modC6.stateItems false) false).1) "x" = paramValueOf modC6 "x"
    ∧ paramAnimOf ((Module.set_state none ["m"] modC6 eng0
        (modC6.stateItems false) false).1) "x" = some false
    ∧ (Module.set_state none ["m"] modC6 eng0
        (modC6.stateItems false) false).1 ≠ modC6 := by
  have hstate : Module.stateItems modC6 false
      = [.entry [.str "x", .num 1]] := by
    rw [Module.stateItems]
    simp only [modC6]
    rw [Module.get_state, Module.getStateSubs]
    rfl
  have hroute : Module.set_state none ["m"] modC6 eng0
        (modC6.stateItems false) false
      = Module.set none ["m"] modC6 eng0 [.str "x", .num 1] false false := by
    rw [hstate]
    rfl
  have hraw : Module.set none ["m"] modC6 eng0 [.str "x", .num 1] false false
      = modC6.set_raw none ["m"] eng0 (.str "x") [.num 1] false false :=
    set_cons_to_raw none ["m"] modC6 eng0 "x" [.num 1] false false (by decide)
      (by intro a ha; simp [modC6] at ha)
      (by intro s hs; simp [modC6] at hs)
  refine ⟨by decide, ?_, ?_, ?_⟩
  · rw [hroute, hraw]; decide
  · rw [hroute, hraw]; decide
  · rw [hroute, hraw]
    intro heq
    have h := congrArg (fun mm => paramAnimOf mm "x") heq
    simp only at h
    exact absurd h (by decide)

/-- Claim C6 witness: the round trip on a concrete well-formed two-level
module (two-slot parameter with a default, an alias, an addressed
submodule parameter) preserves the observable core under `force_send` and
is the exact identity without it. -/
theorem c6_witness :
    Module.coreEqb ((Module.set_state none ["m"] modC6w eng0
        (modC6w.stateItems false) true).1) modC6w = true
    ∧ Module.set_state none ["m"] modC6w eng0
        (modC6w.stateItems false) false = (modC6w, eng0) := by
  have hWF : modC6w.WFb = true := by
    simp only [modC6w, subC6w, pC6w]
    rw [Module.WFb, Module.WFbList, Module.WFb, Module.WFbList]
    decide
  have hNA : modC6w.noAnimb = true := by
    simp only [modC6w, subC6w, pC6w]
    rw [Module.noAnimb, Module.noAnimbList, Module.noAnimb, Module.noAnimbList]
    decide
  exact ⟨(c6_roundtrip none ["m"] modC6w eng0 true hWF).1,
    (c6_roundtrip none ["m"] modC6w eng0 false hWF).2 hNA rfl⟩

/-- Claim C9: the MIDI/OSC note-off conversion is asymmetric — the
MIDI-to-OSC direction emits `[channel, note, 0]` (velocity forced to 0)
while the OSC-to-MIDI direction for `/note_off` sets only channel and note,
omitting velocity; note-on converts symmetrically with
`[channel, note, velocity]`. -/
theorem c9_note_conversion :
    (∀ data : Midi.EvData,
        Midi.midi_to_osc .noteoff data
          = ("/note_off", [data.noteChannel, data.noteNote, 0]))
    ∧ (∀ data : Midi.EvData,
        Midi.midi_to_osc .noteon data
          = ("/note_on", [data.noteChannel, data.noteNote, data.noteVelocity]))
    ∧ (∀ c n v : Int,
        Midi.osc_to_midi "/note_off" [.val c, .val n, .val v]
          = .ok (some (.noteoff,
              { noteChannel := some c, noteNote := some n,
                noteVelocity := none })))
    ∧ (∀ c n v : Int,
        Midi.osc_to_midi "/note_on" [.val c, .val n, .val v]
          = .ok (some (.noteon,
              { noteChannel := some c, noteNote := some n,
                noteVelocity := some v }))) := by
  refine ⟨fun data => rfl, fun data => rfl, fun c n v => rfl, fun c n v => rfl⟩

end Mentat
